import Mathlib

/-!
Verification development for a WhatsApp chat-analysis engine
(parser, chat index, statistics analyzers).

JavaScript values are modelled shallowly:
* strings are `List Char` (`Str`) at the character level; `.length` of an
  ASCII string agrees with the JS UTF-16 length on the inputs considered here;
* machine numbers are exact: integer quantities are `Int`/`Nat`, fractional
  arithmetic is `ℚ`; where the source can produce `Infinity`/`NaN`
  (IEEE-754 division), the extended type `JSNum` is used;
* `Date` objects appear either as an integer count of milliseconds, or, for
  calendar-date logic, as an integer day index (two dates on consecutive
  calendar days have day indices differing by one).
-/

/-- Character strings of the JS runtime, modelled as lists of characters. -/
abbrev Str := List Char

/-- ASCII decimal digit (the `\d` class of the source regexes). -/
def isDigitCh (c : Char) : Bool := '0' ≤ c && c ≤ '9'

/-- JS whitespace (`\s` class / `String.trim`), restricted to the common
whitespace characters. -/
def isJsWs (c : Char) : Bool :=
  c = ' ' || c = '\t' || c = '\n' || c = '\r' || c = '\x0b' || c = '\x0c'

/-- `String.prototype.trim`: strip leading and trailing whitespace. -/
def jsTrim (s : Str) : Str :=
  ((s.dropWhile isJsWs).reverse.dropWhile isJsWs).reverse

/-- `String.prototype.toLowerCase` (ASCII letters; all inputs considered
here are ASCII apart from the left-to-right mark, which is unaffected). -/
def jsLower (s : Str) : Str := s.map Char.toLower

/-- Whether `pre` is a prefix of `l` (Boolean form). -/
def isPrefixB : Str → Str → Bool
  | [], _ => true
  | _ :: _, [] => false
  | a :: as, b :: bs => a = b && isPrefixB as bs

/-- `String.prototype.includes`: `sub` occurs contiguously inside `s`. -/
def includesB (s sub : Str) : Bool :=
  match s with
  | [] => sub.isEmpty
  | _ :: rest => isPrefixB sub s || includesB rest sub

/-- Media-omission markers of `isMediaMessage` (src/js/parser.js). -/
def mediaIndicators : List Str :=
  [ "<attached:".toList,
    "image omitted".toList,
    "video omitted".toList,
    "audio omitted".toList,
    "sticker omitted".toList,
    "GIF omitted".toList,
    "document omitted".toList,
    "Contact card omitted".toList,
    "<Media omitted>".toList,
    ('\u200E' :: "image omitted".toList),
    ('\u200E' :: "video omitted".toList),
    ('\u200E' :: "audio omitted".toList),
    ('\u200E' :: "sticker omitted".toList),
    ('\u200E' :: "GIF omitted".toList),
    ('\u200E' :: "document omitted".toList) ]

/-- `isMediaMessage` (src/js/parser.js): case-insensitive substring match
against the media indicators. -/
def isMediaMessage (content : Str) : Bool :=
  mediaIndicators.any (fun ind => includesB (jsLower content) (jsLower ind))

/-- Collapse every maximal whitespace run to a single space
(`content.replace(/\s+/g, ' ')`). -/
def collapseWs : Str → Str
  | [] => []
  | c :: rest =>
    if isJsWs c then ' ' :: collapseWs (rest.dropWhile isJsWs)
    else c :: collapseWs rest
  termination_by l => l.length
  decreasing_by
    · exact Nat.lt_succ_of_le (List.Sublist.length_le (List.dropWhile_sublist _))
    · simp

/-- Zero-width characters stripped by `isSystemMessage`
(the U+200B to U+200F range and U+FEFF). -/
def isZeroWidth (c : Char) : Bool :=
  ('\u200B' ≤ c && c ≤ '\u200F') || c = '\uFEFF'

/-- Phrase indicators of `isSystemMessage` (src/js/parser.js). -/
def systemIndicators : List Str :=
  [ "messages and calls are end-to-end encrypted".toList,
    "created group".toList,
    "added".toList,
    "removed".toList,
    "left".toList,
    "changed the subject".toList,
    "changed this group's icon".toList,
    "changed the group description".toList,
    "you deleted this message".toList,
    "this message was deleted".toList,
    "security code changed".toList,
    "joined using this group's invite link".toList,
    "missed voice call".toList,
    "missed video call".toList,
    "voice call".toList,
    "video call".toList,
    "waiting for this message".toList,
    "trying to call you".toList,
    "called you".toList,
    "tap to call back".toList,
    "call back".toList ]

/-- `isSystemMessage` (src/js/parser.js).  The participant argument is
accepted but unused, as in the source. -/
def isSystemMessage (content : Str) (_participant : Str) : Bool :=
  let cleanContent := jsTrim (jsLower (collapseWs (content.filter (fun c => !isZeroWidth c))))
  systemIndicators.any (fun ind => includesB cleanContent ind) ||
    (includesB cleanContent "missed".toList && includesB cleanContent "call".toList) ||
    ((includesB cleanContent "voice".toList || includesB cleanContent "video".toList) &&
      includesB cleanContent "call".toList)

/-- The mutable in-progress message of the tokenizer loop
(`currentMessage` in `parseWhatsAppChat`), before system/media tagging is
final. -/
structure CurMsg where
  participant : Str
  content : Str
  isSystem : Bool
  isMedia : Bool
  deriving Repr, DecidableEq

/-- One continuation-line step of the tokenizer (src/js/parser.js lines
91-102): append the line to the content with a newline separator, and set
the media flag if the line alone matches a media indicator. -/
def appendContinuation (m : CurMsg) (line : Str) : CurMsg :=
  { m with
    content := m.content ++ '\n' :: line,
    isMedia := if isMediaMessage line then true else m.isMedia }

/-! ## Analytics-layer messages

The statistics analyzers consume parsed non-system messages.  They read the
timestamp only through `getTime()` (milliseconds) and comparisons, so a
message here carries its timestamp as an integer millisecond count. -/

/-- A non-system message as seen by the statistics engine. -/
structure AMsg where
  participant : String
  /-- `timestamp.getTime()` in milliseconds. -/
  t : ℤ
  content : String
  isMedia : Bool
  deriving Repr, DecidableEq

/-- `[...messages].sort((a, b) => a.timestamp.getTime() - b.timestamp.getTime())`:
stable ascending sort by timestamp. -/
def sortByTime (msgs : List AMsg) : List AMsg :=
  msgs.mergeSort (fun a b => a.t ≤ b.t)

/-- `isNewConversation` (src/js/utils.js): a gap is a conversation boundary
exactly when it exceeds two hours. -/
def isNewConversation (milliseconds : ℤ) : Bool :=
  milliseconds > 2 * 60 * 60 * 1000

/-- `isValidResponseTime` (src/js/utils.js): a gap is a valid response time
exactly when it is under 24 hours. -/
def isValidResponseTime (milliseconds : ℤ) : Bool :=
  milliseconds < 24 * 60 * 60 * 1000

/-! ## Response-time attribution (`calculateResponseTimes`) -/

/-- A recorded response-time sample: the responder
(`nextMsg.participant`, who receives the sample via `addResponseTime`),
the author of the message being answered (`currentMsg.participant`), and
the recorded delta in milliseconds. -/
structure RSample where
  responder : String
  origin : String
  delta : ℤ
  deriving Repr, DecidableEq

/-- Inner loop of `calculateResponseTimes`: the first later message whose
participant differs from `p` (the loop breaks at the first such message). -/
def firstOtherParticipant (p : String) : List AMsg → Option AMsg
  | [] => none
  | m :: rest => if m.participant ≠ p then some m else firstOtherParticipant p rest

/-- Samples recorded by the outer loop of `calculateResponseTimes`
(src/js/statistics.js lines 19-42) on an already-sorted list: for each
message, take the first later message from a different participant and
record the delta on that responder when it is a valid response time. -/
def responseSamplesSorted : List AMsg → List RSample
  | [] => []
  | m :: rest =>
    (match firstOtherParticipant m.participant rest with
     | none => []
     | some n =>
       if isValidResponseTime (n.t - m.t) then
         [⟨n.participant, m.participant, n.t - m.t⟩]
       else []) ++ responseSamplesSorted rest

/-- `calculateResponseTimes` (src/js/statistics.js): sort by timestamp, then
record the response-time samples.  The returned list is the sequence of
`addResponseTime` effects, in order. -/
def calculateResponseTimes (msgs : List AMsg) : List RSample :=
  responseSamplesSorted (sortByTime msgs)

/-! ## Conversation starters, lengths, and initiator patterns -/

/-- Scan of the sorted tail in `calculateConversationStarters`; `prev` is
the immediately preceding message, `p` the participant whose counter is
being observed. -/
def startersAux (p : String) (prev : AMsg) : List AMsg → ℕ
  | [] => 0
  | m :: rest =>
    (if isNewConversation (m.t - prev.t) && m.participant = p then 1 else 0) +
      startersAux p m rest

/-- `calculateConversationStarters` (src/js/statistics.js lines 50-79),
projected to the effect on a single participant `p`: the number of times
`p`'s `conversationsStarted` counter is incremented.  The first message is
always a starter; a later message is a starter when the gap from the
immediately preceding message satisfies `isNewConversation`. -/
def conversationStartersCount (msgs : List AMsg) (p : String) : ℕ :=
  match sortByTime msgs with
  | [] => 0
  | first :: rest =>
    (if first.participant = p then 1 else 0) + startersAux p first rest

/-- Conversation partition of `analyzeConversationLengths`
(src/js/statistics.js lines 712-731): split the sorted sequence into
conversations at gaps classified by `isNewConversation`.  `cur` is the
in-progress conversation (in reverse push order), `prev` the previous
message's timestamp. -/
def splitConversationsAux (prev : ℤ) (cur : List AMsg) :
    List AMsg → List (List AMsg)
  | [] => [cur.reverse]
  | m :: rest =>
    if !isNewConversation (m.t - prev) then
      splitConversationsAux m.t (m :: cur) rest
    else
      cur.reverse :: splitConversationsAux m.t [m] rest

/-- The conversations produced by `analyzeConversationLengths` on the
sorted message list. -/
def splitConversations (msgs : List AMsg) : List (List AMsg) :=
  match sortByTime msgs with
  | [] => []
  | m :: rest => splitConversationsAux m.t [m] rest

/-- Scan of the turn counter; `lastParticipant` is the speaker of the
previous message of the conversation. -/
def turnsAux (lastParticipant : Option String) : List AMsg → ℕ
  | [] => 0
  | m :: rest =>
    if lastParticipant ≠ some m.participant then
      1 + turnsAux (some m.participant) rest
    else
      turnsAux (some m.participant) rest

/-- Turn counting of `analyzeConversationLengths`: one turn per maximal run
of consecutive same-participant messages. -/
def countTurns (convo : List AMsg) : ℕ :=
  turnsAux none convo

/-- Result record of `analyzeConversationLengths`. -/
structure ConvLengthResult where
  lengths : List ℕ
  short : ℕ
  medium : ℕ
  long : ℕ
  average : ℚ
  total : ℕ
  longest : ℕ
  deriving Repr, DecidableEq

/-- `analyzeConversationLengths` (src/js/statistics.js lines 711-762). -/
def analyzeConversationLengths (msgs : List AMsg) : ConvLengthResult :=
  let conversations := splitConversations msgs
  let conversationLengths := conversations.map countTurns
  { lengths := conversationLengths
    short := (conversationLengths.filter (fun l => l ≤ 5)).length
    medium := (conversationLengths.filter (fun l => 5 < l && l ≤ 15)).length
    long := (conversationLengths.filter (fun l => 15 < l)).length
    average :=
      if conversationLengths.length > 0 then
        ((conversationLengths.map (fun l => (l : ℚ))).sum) / conversationLengths.length
      else 0
    total := conversations.length
    longest := conversationLengths.foldr max 0 }

/-- Scan of the initiator-pattern loop; `lastTimestamp` is the timestamp
of the previous message (`null` before the first message). -/
def initiatorAux (p : String) (lastTimestamp : Option ℤ) : List AMsg → ℕ
  | [] => 0
  | m :: rest =>
    (if (match lastTimestamp with
         | none => true
         | some last => isNewConversation (m.t - last)) && m.participant = p
     then 1 else 0) + initiatorAux p (some m.t) rest

/-- `getConversationInitiatorPatterns` (src/js/statistics.js lines 673-704),
projected to the total number of conversation starts credited to
participant `p` (the source splits this count over hour/day buckets; the
bucket structure is timezone-dependent presentation and the classification
decision is per message).  A message is credited when there is no previous
message or the gap from the previous message satisfies `isNewConversation`. -/
def initiatorStartsCount (msgs : List AMsg) (p : String) : ℕ :=
  initiatorAux p none (sortByTime msgs)

/-! ## Streak detection (`calculateStreaks`)

`calculateStreaks` reads timestamps only through `toDateString()` (the local
calendar date) and through day-count differences of the resulting
midnight dates.  A calendar date is therefore modelled as an integer day
index: two dates on consecutive calendar days differ by exactly 1, and
`Math.floor((currDate - prevDate) / 86400000)` on two midnight dates equals
their day-index difference. -/

/-- A recorded streak entry (`{length, startDate, endDate}`). -/
structure StreakEntry where
  length : ℕ
  startDate : ℤ
  endDate : ℤ
  deriving Repr, DecidableEq

/-- Result of `calculateStreaks`.  In the source the empty-input early
return omits `totalDaysWithMessages`; it is 0 here. -/
structure StreakResult where
  currentStreak : ℕ
  longestStreak : ℕ
  streaks : List StreakEntry
  totalDaysWithMessages : ℕ
  deriving Repr, DecidableEq

/-- The `i = 1 .. sortedDates.length-1` loop of `calculateStreaks`
(src/js/statistics.js lines 141-165).  State: previous date, current
streak length, longest so far, first and last date of the current run
(`currentStreakDays[0]` and its last element), and the entries recorded so
far.  Returns the final state `(currentStreak, longestStreak, start, end,
streaks)`. -/
def streaksLoop (prev : ℤ) (cs ls : ℕ) (s e : ℤ) (acc : List StreakEntry) :
    List ℤ → ℕ × ℕ × ℤ × ℤ × List StreakEntry
  | [] => (cs, ls, s, e, acc)
  | d :: rest =>
    let daysDiff := d - prev
    if daysDiff = 1 then
      streaksLoop d (cs + 1) ls s d acc rest
    else
      let acc' := if cs ≥ 2 then acc ++ [⟨cs, s, e⟩] else acc
      streaksLoop d 1 (max ls cs) d d acc' rest

/-- `calculateStreaks` (src/js/statistics.js lines 117-190).  `msgDays` is
the list of calendar dates (as day indices) of the index's messages, in
message order; `today` is the evaluation date (midnight, as a day index).
The distinct dates are collected in first-seen order (a JS `Set`) and
sorted ascending. -/
def calculateStreaks (msgDays : List ℤ) (today : ℤ) : StreakResult :=
  match (msgDays.dedup.mergeSort (fun a b => a ≤ b)) with
  | [] => { currentStreak := 0, longestStreak := 0, streaks := [], totalDaysWithMessages := 0 }
  | d0 :: rest =>
    let (cs, ls, s, e, acc) := streaksLoop d0 1 1 d0 d0 [] rest
    let streaks := if cs ≥ 2 then acc ++ [⟨cs, s, e⟩] else acc
    let longestStreak := max ls cs
    let lastDate := (d0 :: rest).getLast (by simp)
    let daysSinceLastMessage := today - lastDate
    let activeStreak := if daysSinceLastMessage ≤ 1 then cs else 0
    { currentStreak := activeStreak
      longestStreak := longestStreak
      streaks := streaks
      totalDaysWithMessages := (d0 :: rest).length }

/-- Specification-side decomposition of a sorted list of distinct dates
into maximal runs of consecutive days (day difference exactly 1).
`cur` is the in-progress run, most recent day first. -/
def runsAux (prev : ℤ) (cur : List ℤ) : List ℤ → List (List ℤ)
  | [] => [cur.reverse]
  | d :: rest =>
    if d - prev = 1 then runsAux d (d :: cur) rest
    else cur.reverse :: runsAux d [d] rest

/-- Maximal runs of consecutive days of a sorted list of distinct dates. -/
def consecutiveRuns : List ℤ → List (List ℤ)
  | [] => []
  | d :: rest => runsAux d [d] rest

/-! ## JS extended numbers

IEEE-754 doubles restricted to the exactly-representable rational values,
plus the non-finite values that the unguarded divisions of
`analyzeActivityTrend` can produce. -/

/-- A JS number: a finite (exact, rational) value, `Infinity`,
`-Infinity`, or `NaN`. -/
inductive JSNum where
  | fin : ℚ → JSNum
  | inf : JSNum
  | ninf : JSNum
  | nan : JSNum
  deriving Repr, DecidableEq

/-- JS subtraction on extended numbers. -/
def jsSub : JSNum → JSNum → JSNum
  | .fin a, .fin b => .fin (a - b)
  | .fin _, .inf => .ninf
  | .fin _, .ninf => .inf
  | .inf, .fin _ => .inf
  | .ninf, .fin _ => .ninf
  | .inf, .ninf => .inf
  | .ninf, .inf => .ninf
  | .inf, .inf => .nan
  | .ninf, .ninf => .nan
  | .nan, _ => .nan
  | _, .nan => .nan

/-- JS multiplication on extended numbers. -/
def jsMul : JSNum → JSNum → JSNum
  | .fin a, .fin b => .fin (a * b)
  | .fin a, .inf => if a > 0 then .inf else if a < 0 then .ninf else .nan
  | .fin a, .ninf => if a > 0 then .ninf else if a < 0 then .inf else .nan
  | .inf, .fin b => if b > 0 then .inf else if b < 0 then .ninf else .nan
  | .ninf, .fin b => if b > 0 then .ninf else if b < 0 then .inf else .nan
  | .inf, .inf => .inf
  | .inf, .ninf => .ninf
  | .ninf, .inf => .ninf
  | .ninf, .ninf => .inf
  | .nan, _ => .nan
  | _, .nan => .nan

/-- JS division on extended numbers.  Division of a nonzero finite value
by (positive) zero gives a signed infinity; `0 / 0` gives `NaN`.
(The sign of a JS negative zero is not tracked: `Math.ceil` results are
modelled as plain integers, identifying `-0` with `0`.) -/
def jsDiv : JSNum → JSNum → JSNum
  | .fin a, .fin b =>
    if b ≠ 0 then .fin (a / b)
    else if a > 0 then .inf else if a < 0 then .ninf else .nan
  | .fin _, .inf => .fin 0
  | .fin _, .ninf => .fin 0
  | .inf, .fin b => if b ≥ 0 then .inf else .ninf
  | .ninf, .fin b => if b ≥ 0 then .ninf else .inf
  | .inf, .inf => .nan
  | .inf, .ninf => .nan
  | .ninf, .inf => .nan
  | .ninf, .ninf => .nan
  | .nan, _ => .nan
  | _, .nan => .nan

/-- `x > q` for a JS number and a finite literal (`NaN` compares false). -/
def jsGtQ : JSNum → ℚ → Bool
  | .fin a, q => a > q
  | .inf, _ => true
  | .ninf, _ => false
  | .nan, _ => false

/-- `x < q` for a JS number and a finite literal (`NaN` compares false). -/
def jsLtQ : JSNum → ℚ → Bool
  | .fin a, q => a < q
  | .inf, _ => false
  | .ninf, _ => true
  | .nan, _ => false

/-! ## Activity trend (`analyzeActivityTrend`) -/

/-- One period of the activity-trend comparison. -/
structure PeriodInfo where
  messages : ℕ
  days : ℤ
  avgPerDay : JSNum
  startDate : ℤ
  endDate : ℤ
  deriving Repr, DecidableEq

/-- Result of `analyzeActivityTrend`.  The `comparison` object is `none`
for the empty-index early return (`comparison: {}`). -/
structure TrendResult where
  trend : String
  percentageChange : JSNum
  comparison : Option (PeriodInfo × PeriodInfo)
  deriving Repr, DecidableEq

/-- `analyzeActivityTrend` (src/js/statistics.js lines 896-970). -/
def analyzeActivityTrend (msgs : List AMsg) : TrendResult :=
  match sortByTime msgs with
  | [] => { trend := "neutral", percentageChange := .fin 0, comparison := none }
  | first :: restSorted =>
    let sorted := first :: restSorted
    let firstDate := first.t
    let lastDate := (sorted.getLast (by simp)).t
    let totalDays : ℤ := ⌈((lastDate - firstDate : ℤ) : ℚ) / 86400000⌉
    -- `midPoint = firstDate + (totalDays / 2) * 86400000`: the product is an
    -- even number of milliseconds, so the JS float value is this integer.
    let firstPeriodEnd : ℤ :=
      if totalDays < 60 then firstDate + totalDays * 86400000 / 2
      else firstDate + 30 * 86400000
    let secondPeriodStart : ℤ :=
      if totalDays < 60 then firstDate + totalDays * 86400000 / 2
      else lastDate - 30 * 86400000
    let firstPeriodMessages :=
      (sorted.filter (fun m => firstDate ≤ m.t && m.t ≤ firstPeriodEnd)).length
    let secondPeriodMessages :=
      (sorted.filter (fun m => secondPeriodStart ≤ m.t && m.t ≤ lastDate)).length
    let firstPeriodDays : ℤ := ⌈((firstPeriodEnd - firstDate : ℤ) : ℚ) / 86400000⌉
    let secondPeriodDays : ℤ := ⌈((lastDate - secondPeriodStart : ℤ) : ℚ) / 86400000⌉
    let firstPeriodAvg := jsDiv (.fin firstPeriodMessages) (.fin firstPeriodDays)
    let secondPeriodAvg := jsDiv (.fin secondPeriodMessages) (.fin secondPeriodDays)
    let percentageChange := jsMul (jsDiv (jsSub secondPeriodAvg firstPeriodAvg) firstPeriodAvg) (.fin 100)
    let trend :=
      if jsGtQ percentageChange 10 then "increasing"
      else if jsLtQ percentageChange (-10) then "decreasing"
      else "stable"
    { trend := trend
      percentageChange := percentageChange
      comparison := some
        ( { messages := firstPeriodMessages, days := firstPeriodDays,
            avgPerDay := firstPeriodAvg, startDate := firstDate, endDate := firstPeriodEnd },
          { messages := secondPeriodMessages, days := secondPeriodDays,
            avgPerDay := secondPeriodAvg, startDate := secondPeriodStart, endDate := lastDate } ) }

/-! ## Relationship health (`calculateRelationshipHealth`)

A `ParticipantData` record as consumed by the health scorer: cumulative
counters and the response-time sample list.  Records are created lazily on
a participant's first message, so every record reachable from a loaded
index has `messageCount ≥ 1`; rational division (with junk value 0 for
division by zero) therefore agrees with the JS float computation on all
reachable inputs, and theorems below carry `messageCount ≠ 0` hypotheses. -/

/-- The fields of `ParticipantData` used by `calculateRelationshipHealth`. -/
structure PRec where
  name : String
  messageCount : ℕ
  wordCount : ℕ
  /-- Response-time samples in milliseconds. -/
  responseTimes : List ℚ
  deriving Repr, DecidableEq

/-- `ParticipantData.getAverageResponseTime` (src/js/dataModel.js): 0 for
an empty sample list, else the mean. -/
def getAverageResponseTime (p : PRec) : ℚ :=
  if p.responseTimes.length = 0 then 0
  else p.responseTimes.sum / p.responseTimes.length

/-- `Math.round`: round half toward positive infinity. -/
def jsRound (q : ℚ) : ℤ := ⌊q + 1/2⌋

/-- `getHealthInterpretation` (src/js/statistics.js lines 523-528). -/
def getHealthInterpretation (score : ℚ) : String :=
  if score ≥ 80 then "Excellent"
  else if score ≥ 60 then "Good"
  else if score ≥ 40 then "Fair"
  else "Needs Attention"

/-- Result of `calculateRelationshipHealth` (the `details` sub-record,
which repeats the inputs for display, is not modelled). -/
structure HealthResult where
  overallHealth : ℤ
  reciprocityScore : ℤ
  responseScore : ℤ
  engagementScore : ℤ
  interpretation : String
  deriving Repr, DecidableEq

/-- The word-count engagement score of `calculateRelationshipHealth`
(src/js/statistics.js lines 482-486). -/
def wordScoreOf (avgWordCount : ℚ) : ℚ :=
  if avgWordCount < 5 then (avgWordCount / 5) * 100
  else if avgWordCount > 20 then max 0 (100 - ((avgWordCount - 20) / 30) * 100)
  else 100

/-- `calculateRelationshipHealth` (src/js/statistics.js lines 451-516):
`null` unless there are exactly two participants. -/
def calculateRelationshipHealth (participants : List PRec) : Option HealthResult :=
  match participants with
  | [p1, p2] =>
    let totalMessages : ℚ := (p1.messageCount : ℚ) + (p2.messageCount : ℚ)
    let idealSplit := totalMessages / 2
    let deviation := |(p1.messageCount : ℚ) - idealSplit|
    let reciprocityScore := max 0 (100 - (deviation / totalMessages) * 100)
    let avgResponseTime1 := getAverageResponseTime p1
    let avgResponseTime2 := getAverageResponseTime p2
    let maxTime : ℚ := 24 * 60 * 60 * 1000
    let responseScore1 := max 0 (100 - (avgResponseTime1 / maxTime) * 100)
    let responseScore2 := max 0 (100 - (avgResponseTime2 / maxTime) * 100)
    let responseScore := (responseScore1 + responseScore2) / 2
    -- `p.wordCount / p.messageCount || 0`: for a reachable record
    -- (messageCount ≥ 1) the `|| 0` fallback only replaces `0/0`.
    let avgWordCount1 : ℚ :=
      if p1.messageCount = 0 then 0 else (p1.wordCount : ℚ) / p1.messageCount
    let avgWordCount2 : ℚ :=
      if p2.messageCount = 0 then 0 else (p2.wordCount : ℚ) / p2.messageCount
    let avgWordCount := (avgWordCount1 + avgWordCount2) / 2
    let engagementScore := wordScoreOf avgWordCount
    let overallHealth :=
      reciprocityScore * (4/10) + responseScore * (3/10) + engagementScore * (3/10)
    some
      { overallHealth := jsRound overallHealth
        reciprocityScore := jsRound reciprocityScore
        responseScore := jsRound responseScore
        engagementScore := jsRound engagementScore
        interpretation := getHealthInterpretation overallHealth }
  | _ => none

/-! ## Sentiment aggregation (`analyzeSentiment`)

The external lexicon scorer (`new window.Sentiment().analyze(text).score`)
is an abstract capability `score : String → ℚ`.  A message for the
sentiment analyzer carries its content, its timestamp in milliseconds, and
its `YYYY-MM` month key (`getMonthKey(msg.timestamp)` of the local
calendar). -/

/-- A participant message as consumed by `analyzeSentiment`. -/
structure SMsg where
  content : String
  t : ℤ
  monthKey : String
  deriving Repr, DecidableEq

/-- `analyzeMessageSentiment` (src/js/statistics.js lines 977-992):
normalize the external raw score to [-1, 1]; empty/whitespace-only text
scores 0. -/
def analyzeMessageSentiment (score : String → ℚ) (text : String) : ℚ :=
  if jsTrim text.toList = [] then 0
  else max (-1) (min 1 (score text / 10))

/-- A scored message kept for the top-positive/top-negative lists. -/
structure ScoredMsg where
  content : String
  score : ℚ
  t : ℤ
  deriving Repr, DecidableEq

/-- One month bucket of the sentiment trend accumulator. -/
structure SBucket where
  scores : List ℚ
  positive : ℕ
  negative : ℕ
  neutral : ℕ
  deriving Repr, DecidableEq

/-- Accumulator state of the `messages.forEach` loop of
`analyzeSentiment`.  `periodMap` is an insertion-ordered association list
(a JS `Map`). -/
structure SentState where
  totalScore : ℚ
  positiveCount : ℕ
  negativeCount : ℕ
  neutralCount : ℕ
  periodMap : List (String × SBucket)
  scoredMessages : List ScoredMsg
  deriving Repr, DecidableEq

/-- Update one month bucket of the period map (get-or-create, then push
the score and bump the matching category). -/
def updatePeriodMap (pm : List (String × SBucket)) (key : String) (score : ℚ) :
    List (String × SBucket) :=
  let pm := if pm.any (fun kv => kv.1 = key) then pm else pm ++ [(key, ⟨[], 0, 0, 0⟩)]
  pm.map (fun kv =>
    if kv.1 = key then
      (kv.1,
        { scores := kv.2.scores ++ [score]
          positive := if score > 5/100 then kv.2.positive + 1 else kv.2.positive
          negative := if score < -(5/100) then kv.2.negative + 1 else kv.2.negative
          neutral := if ¬(score > 5/100) ∧ ¬(score < -(5/100)) then kv.2.neutral + 1
                     else kv.2.neutral })
    else kv)

/-- Whether a message enters the sentiment aggregates: nonempty content of
at most 200 characters (`MAX_LENGTH`). -/
def sentimentIncluded (m : SMsg) : Bool :=
  !(jsTrim m.content.toList).isEmpty && m.content.length ≤ 200

/-- The loop body of `analyzeSentiment` (src/js/statistics.js lines
1025-1064): empty and over-long messages return early without touching
the state. -/
def sentimentStep (score : String → ℚ) (st : SentState) (m : SMsg) : SentState :=
  if jsTrim m.content.toList = [] then st
  else if m.content.length > 200 then st
  else
    let sc := analyzeMessageSentiment score m.content
    { totalScore := st.totalScore + sc
      positiveCount := if sc > 5/100 then st.positiveCount + 1 else st.positiveCount
      negativeCount := if sc < -(5/100) then st.negativeCount + 1 else st.negativeCount
      neutralCount := if ¬(sc > 5/100) ∧ ¬(sc < -(5/100)) then st.neutralCount + 1
                      else st.neutralCount
      periodMap := updatePeriodMap st.periodMap m.monthKey sc
      scoredMessages := st.scoredMessages ++ [⟨m.content, sc, m.t⟩] }

/-- One entry of the monthly sentiment trend. -/
structure STrendEntry where
  period : String
  avgScore : ℚ
  positive : ℕ
  negative : ℕ
  neutral : ℕ
  deriving Repr, DecidableEq

/-- Result record of `analyzeSentiment`. -/
structure SentimentResult where
  overall : ℚ
  positive : ℕ
  negative : ℕ
  neutral : ℕ
  trend : List STrendEntry
  topPositive : List ScoredMsg
  topNegative : List ScoredMsg
  deriving Repr, DecidableEq

/-- Finalization of `analyzeSentiment` (src/js/statistics.js lines
1066-1090): build the sorted monthly trend, the top-5 lists, and the
overall average — whose denominator is `messages.length`, the COUNT OF ALL
of the participant's messages, given here as `denom`. -/
def sentimentFinalize (st : SentState) (denom : ℕ) : SentimentResult :=
  let trend := (st.periodMap.map (fun kv =>
      { period := kv.1
        avgScore := kv.2.scores.sum / kv.2.scores.length
        positive := kv.2.positive
        negative := kv.2.negative
        neutral := kv.2.neutral : STrendEntry })).mergeSort
      (fun a b => a.period ≤ b.period)
  let sortedByScore := st.scoredMessages.mergeSort (fun a b => b.score ≤ a.score)
  let topPositive := (sortedByScore.take 5).filter (fun m => m.score > 0)
  let topNegative := ((sortedByScore.drop (sortedByScore.length - 5)).reverse).filter
      (fun m => m.score < 0)
  { overall := if denom > 0 then st.totalScore / denom else 0
    positive := st.positiveCount
    negative := st.negativeCount
    neutral := st.neutralCount
    trend := trend
    topPositive := topPositive
    topNegative := topNegative }

/-- Sort a participant's sentiment messages by timestamp
(`[...participant.messages].sort((a, b) => a.timestamp - b.timestamp)`). -/
def sortSMsgs (msgs : List SMsg) : List SMsg :=
  msgs.mergeSort (fun a b => a.t ≤ b.t)

/-- `analyzeSentiment` (src/js/statistics.js lines 1000-1091) on a
participant's message list (the not-found participant branch returns the
all-zero result before this body runs). -/
def analyzeSentiment (score : String → ℚ) (msgs : List SMsg) : SentimentResult :=
  let messages := sortSMsgs msgs
  sentimentFinalize
    (messages.foldl (sentimentStep score) ⟨0, 0, 0, 0, [], []⟩)
    messages.length

/-! ## Participant records (`ParticipantData.addMessage`)

The emoji extractor (`extractEmojis` in src/js/utils.js) matches the
Unicode `Emoji_Presentation` / `Extended_Pictographic` property classes;
that property data is external, so the extractor is a parameter here.  All
properties below hold for every extractor. -/

/-- ASCII alphabetic character (the `/[^a-zA-Z]/` classes). -/
def isAsciiAlpha (c : Char) : Bool :=
  ('a' ≤ c && c ≤ 'z') || ('A' ≤ c && c ≤ 'Z')

/-- ASCII uppercase letter (the `/[A-Z]/g` class). -/
def isAsciiUpper (c : Char) : Bool := 'A' ≤ c && c ≤ 'Z'

/-- Split into maximal whitespace-separated words (`split(/\s+/)` plus the
nonempty filter). -/
def wordsOf : Str → List Str
  | [] => []
  | c :: rest =>
    if isJsWs c then wordsOf rest
    else
      (c :: rest).takeWhile (fun x => !isJsWs x) ::
        wordsOf ((c :: rest).dropWhile (fun x => !isJsWs x))
  termination_by l => l.length
  decreasing_by
    · simp
    · simp only [List.dropWhile]
      simp only [isJsWs] at *
      simp_all
      exact Nat.lt_succ_of_le (List.Sublist.length_le (List.dropWhile_sublist _))

/-- `countWords` (src/js/utils.js): whitespace-tokenized word count of the
trimmed text. -/
def countWords (text : String) : ℕ :=
  (wordsOf (jsTrim text.toList)).length

/-- `countLetters` (src/js/utils.js): number of ASCII alphabetic
characters. -/
def countLetters (text : String) : ℕ :=
  (text.toList.filter isAsciiAlpha).length

/-- The cumulative per-participant state (`ParticipantData`,
src/js/dataModel.js lines 10-29), restricted to the fields `addMessage`
touches. -/
structure PState where
  name : String
  messageCount : ℕ
  wordCount : ℕ
  letterCount : ℕ
  emojiCount : ℕ
  /-- `topEmojis`: insertion-ordered emoji → count map. -/
  topEmojis : List (String × ℕ)
  messages : List AMsg
  messageLengths : List ℕ
  characterLengths : List ℕ
  questionCount : ℕ
  exclamationCount : ℕ
  allCapsCount : ℕ
  deriving Repr, DecidableEq

/-- `topEmojis.set(emoji, (topEmojis.get(emoji) || 0) + 1)`: bump an
existing key in place, or append a new key. -/
def bumpEmoji (l : List (String × ℕ)) (e : String) : List (String × ℕ) :=
  if l.any (fun kv => kv.1 = e) then
    l.map (fun kv => if kv.1 = e then (kv.1, kv.2 + 1) else kv)
  else l ++ [(e, 1)]

/-- `ParticipantData.addMessage` (src/js/dataModel.js lines 35-78),
parameterized by the emoji extractor.  The word/letter/emoji/style updates
run only for a message with truthy (nonempty) content that is not media. -/
def addMessage (extractEmojis : String → List String) (s : PState) (m : AMsg) : PState :=
  let s := { s with messageCount := s.messageCount + 1, messages := s.messages ++ [m] }
  if m.content ≠ "" ∧ m.isMedia = false then
    let words := countWords m.content
    let letters := countLetters m.content
    let alphaChars := m.content.toList.filter isAsciiAlpha
    let isAllCaps : Bool :=
      alphaChars.length ≥ 5 &&
        ((alphaChars.filter isAsciiUpper).length : ℚ) / alphaChars.length > 7/10
    let emojis := extractEmojis m.content
    { s with
      wordCount := s.wordCount + words
      letterCount := s.letterCount + letters
      messageLengths := s.messageLengths ++ [words]
      characterLengths := s.characterLengths ++ [m.content.length]
      questionCount :=
        if includesB m.content.toList ['?'] then s.questionCount + 1 else s.questionCount
      exclamationCount :=
        if includesB m.content.toList ['!'] then s.exclamationCount + 1 else s.exclamationCount
      allCapsCount := if isAllCaps then s.allCapsCount + 1 else s.allCapsCount
      emojiCount := s.emojiCount + emojis.length
      topEmojis := emojis.foldl bumpEmoji s.topEmojis }
  else s

/-! ## The tokenizer's line grammars (src/js/parser.js)

The three anchored regexes are embedded as deterministic recursive-descent
matchers.  Each quantified digit class (`\d{1,2}`, `\d{2}`, `\d{2,4}`,
`\d{4}`) is followed in the pattern by a non-digit, so regex backtracking
over it succeeds exactly when the maximal digit run at that position has
an admissible length and is followed by the required character; `\s*` runs
are likewise followed by non-whitespace requirements.  Each matcher
returns the capture groups; the raw strings of the date and time captures
are recovered by the `render` functions. -/

/-- Require character `c` next; return the remainder. -/
def expectChar (c : Char) : Str → Option Str
  | [] => none
  | x :: rest => if x = c then some rest else none

/-- Match `\d{lo,hi}` followed by a non-digit (or the end): the maximal
digit run, if its length is in `[lo, hi]`. -/
def digitsBetween (lo hi : ℕ) (l : Str) : Option (Str × Str) :=
  let ds := l.takeWhile isDigitCh
  if lo ≤ ds.length ∧ ds.length ≤ hi then some (ds, l.dropWhile isDigitCh) else none

/-- The time capture group
`(\d{1,2}:\d{2}(?::\d{2})?(?:\s*[AP]M)?)`: hour digits, minute digits,
optional second digits, optional AM/PM marker with its leading whitespace
run ('A' or 'P' stored). -/
structure TimeCap where
  h : Str
  m : Str
  s : Option Str
  ap : Option (Str × Char)
  deriving Repr, DecidableEq

/-- The raw string captured by the time group. -/
def TimeCap.render (tc : TimeCap) : Str :=
  tc.h ++ ':' :: tc.m ++
    (match tc.s with | none => [] | some ss => ':' :: ss) ++
    (match tc.ap with | none => [] | some (ws, c) => ws ++ [c, 'M'])

/-- The optional seconds alternative `(?::\d{2})?` of the time group:
taken only when a ':' with exactly two digits follows. -/
def parseSecondsOpt (allowSeconds : Bool) (r3 : Str) : Option Str × Str :=
  if allowSeconds then
    match expectChar ':' r3 with
    | some r =>
      match digitsBetween 2 2 r with
      | some (ss, r') => (some ss, r')
      | none => (none, r3)
    | none => (none, r3)
  else (none, r3)

/-- Parse the time group; `allowSeconds` is false for the dash (Android)
grammar, whose time group has no seconds alternative. -/
def parseTimeCap (allowSeconds : Bool) (l : Str) : Option (TimeCap × Str) :=
  match digitsBetween 1 2 l with
  | none => none
  | some (hh, r1) =>
    match expectChar ':' r1 with
    | none => none
    | some r2 =>
      match digitsBetween 2 2 r2 with
      | none => none
      | some (mm, r3) =>
        let sr : Option Str × Str := parseSecondsOpt allowSeconds r3
        let r4 := sr.2
        -- `(?:\s*[AP]M)?`: taken only when the whitespace run is followed
        -- by 'A' or 'P' and then 'M'.
        let ws := r4.takeWhile isJsWs
        match r4.dropWhile isJsWs with
        | a :: b :: r6 =>
          if (a = 'A' || a = 'P') && b = 'M' then
            some (⟨hh, mm, sr.1, some (ws, a)⟩, r6)
          else some (⟨hh, mm, sr.1, none⟩, r4)
        | _ => some (⟨hh, mm, sr.1, none⟩, r4)

/-- The date capture group: a slash date `(\d{1,2}\/\d{1,2}\/\d{2,4})` or
an ISO date `(\d{4}-\d{1,2}-\d{1,2})`. -/
inductive DateCap where
  | slash (d1 d2 d3 : Str)
  | isoD (y m d : Str)
  deriving Repr, DecidableEq

/-- The raw string captured by the date group. -/
def DateCap.render : DateCap → Str
  | .slash d1 d2 d3 => d1 ++ '/' :: d2 ++ '/' :: d3
  | .isoD y m d => y ++ '-' :: m ++ '-' :: d

/-- The capture groups of one matched timestamp line. -/
structure RawMatch where
  date : DateCap
  time : TimeCap
  name : Str
  content : Str
  deriving Repr, DecidableEq

/-- Match the trailing `\s*([^:]+):\s*(.*)$` of each grammar: there must be
a colon with at least one character before it; the greedy `\s*` leaves the
name capture starting at the first non-whitespace character, except that
for an all-whitespace name segment backtracking leaves its last character
as the name.  Returns the raw name and content captures. -/
def nameContent (rest : Str) : Option (Str × Str) :=
  let before := rest.takeWhile (fun c => c ≠ ':')
  if before.length = rest.length then none
  else if before.length = 0 then none
  else
    let core := before.dropWhile isJsWs
    let name := if core.length = 0 then before.drop (before.length - 1) else core
    let afterColon := rest.drop (before.length + 1)
    some (name, afterColon.dropWhile isJsWs)

/-- The bracketed slash-date grammar (`iosRegex`, src/js/parser.js line 35). -/
def matchIos (line : Str) : Option RawMatch := do
  let r0 ← expectChar '[' line
  let (d1, r1) ← digitsBetween 1 2 r0
  let r2 ← expectChar '/' r1
  let (d2, r3) ← digitsBetween 1 2 r2
  let r4 ← expectChar '/' r3
  let (d3, r5) ← digitsBetween 2 4 r4
  let r6 ← expectChar ',' r5
  let (tc, r7) ← parseTimeCap true (r6.dropWhile isJsWs)
  let r8 ← expectChar ']' r7
  let (name, content) ← nameContent r8
  pure ⟨.slash d1 d2 d3, tc, name, content⟩

/-- The unbracketed dash grammar (`androidRegex`, src/js/parser.js line 36). -/
def matchAndroid (line : Str) : Option RawMatch := do
  let (d1, r1) ← digitsBetween 1 2 line
  let r2 ← expectChar '/' r1
  let (d2, r3) ← digitsBetween 1 2 r2
  let r4 ← expectChar '/' r3
  let (d3, r5) ← digitsBetween 2 4 r4
  let r6 ← expectChar ',' r5
  let (tc, r7) ← parseTimeCap false (r6.dropWhile isJsWs)
  let r8 ← expectChar '-' (r7.dropWhile isJsWs)
  let (name, content) ← nameContent r8
  pure ⟨.slash d1 d2 d3, tc, name, content⟩

/-- The bracketed ISO-date grammar (`isoRegex`, src/js/parser.js line 37). -/
def matchIso (line : Str) : Option RawMatch := do
  let r0 ← expectChar '[' line
  let (y, r1) ← digitsBetween 4 4 r0
  let r2 ← expectChar '-' r1
  let (mo, r3) ← digitsBetween 1 2 r2
  let r4 ← expectChar '-' r3
  let (d, r5) ← digitsBetween 1 2 r4
  let r6 ← expectChar ',' r5
  let (tc, r7) ← parseTimeCap true (r6.dropWhile isJsWs)
  let r8 ← expectChar ']' r7
  let (name, content) ← nameContent r8
  pure ⟨.isoD y mo d, tc, name, content⟩

/-- The format tag passed to `parseTimestamp`. -/
inductive FormatType where
  | ios
  | android
  | iso
  deriving Repr, DecidableEq

/-- The fixed grammar priority of the tokenizer: bracketed-slash, then
dash, then bracketed-ISO (src/js/parser.js lines 47-60). -/
def matchLine (line : Str) : Option (RawMatch × FormatType) :=
  match matchIos line with
  | some rm => some (rm, .ios)
  | none =>
    match matchAndroid line with
    | some rm => some (rm, .android)
    | none =>
      match matchIso line with
      | some rm => some (rm, .iso)
      | none => none

/-! ## Timestamp parsing (`parseTimestamp`, src/js/parser.js lines 124-185)

`parseInt(p, 10)` and the arithmetic on its results are modelled over
`Option ℤ`, with `none` standing for `NaN`; the `map`ped arithmetic agrees
with the JS `NaN` flow (for a `NaN` hour the `isPM && hours !== 12` branch
is taken and leaves `NaN`; the `isAM && hours === 12` branch is not taken
and also leaves `NaN`). -/

/-- Decimal value of a digit string. -/
def digitsVal (l : Str) : ℕ :=
  l.foldl (fun acc c => acc * 10 + (c.toNat - '0'.toNat)) 0

/-- `parseInt(p, 10)`: the value of the maximal leading digit run, `NaN`
(`none`) when there is none.  (JS `parseInt` also accepts leading
whitespace and a sign; every string fed to it here is cut from a digit
run of a matched line.) -/
def parseIntJS (l : Str) : Option ℤ :=
  let ds := l.takeWhile isDigitCh
  if ds.isEmpty then none else some (digitsVal ds)

/-- `String.prototype.split` with a one-character separator: split on
every occurrence, keeping empty segments. -/
def jsSplit (c : Char) : Str → List Str
  | [] => [[]]
  | a :: rest =>
    if a = c then [] :: jsSplit c rest
    else
      match jsSplit c rest with
      | [] => [[a]]
      | r :: rs => (a :: r) :: rs

/-- One step of `replace(/\s*(AM|PM|am|pm)/gi, '')` at the current
position: a maximal whitespace run followed by a case-insensitive
`AM`/`PM` (shorter whitespace runs cannot help the backtracker, since the
following character would then be whitespace, not `[AaPp]`). -/
def tryAmPm (l : Str) : Option Str :=
  match l.dropWhile isJsWs with
  | a :: b :: rest =>
    if (a = 'A' || a = 'a' || a = 'P' || a = 'p') && (b = 'M' || b = 'm') then
      some rest
    else none
  | _ => none

/-- A successful AM/PM match consumes at least its two marker letters. -/
def tryAmPm_shrink (l r : Str) (h : tryAmPm l = some r) : r.length < l.length := by
  have h1 : (l.dropWhile isJsWs).length ≤ l.length :=
    List.Sublist.length_le (List.dropWhile_sublist _)
  unfold tryAmPm at h
  cases hdw : l.dropWhile isJsWs with
  | nil => rw [hdw] at h; exact absurd h (by simp)
  | cons a tl =>
    cases tl with
    | nil => rw [hdw] at h; exact absurd h (by simp)
    | cons b tl2 =>
      rw [hdw] at h h1
      by_cases hc : ((a = 'A' || a = 'a' || a = 'P' || a = 'p') && (b = 'M' || b = 'm')) = true
      · simp only [hc, if_true] at h
        cases h
        simp at h1
        omega
      · simp only [hc] at h
        simp at h

/-- `timeStr.replace(/\s*(AM|PM|am|pm)/gi, '')`: left-to-right global
removal of whitespace-prefixed AM/PM markers. -/
def stripAmPm : Str → Str
  | [] => []
  | c :: rest =>
    match h : tryAmPm (c :: rest) with
    | some rest2 => stripAmPm rest2
    | none => c :: stripAmPm rest
  termination_by l => l.length
  decreasing_by
    · exact tryAmPm_shrink _ _ h
    · simp

/-- `String.prototype.toUpperCase` (ASCII). -/
def jsUpper (s : Str) : Str := s.map Char.toUpper

/-- The arguments handed to
`new Date(year, month, day, hours, minutes, seconds)` at the end of
`parseTimestamp` (`month` is already 0-indexed, as in the source).
`none` models a `NaN` component. -/
structure DateArgs where
  year : Option ℤ
  month : Option ℤ
  day : Option ℤ
  hours : Option ℤ
  minutes : Option ℤ
  seconds : Option ℤ
  deriving Repr, DecidableEq

/-- The date block of `parseTimestamp` (src/js/parser.js lines 125-152):
the resulting `(year, month, day)` arguments, or the `MalformedTimestamp`
error of a part count other than 3. -/
def parseDatePart (dateStr : Str) (formatType : FormatType) :
    Except Str (Option ℤ × Option ℤ × Option ℤ) :=
  if formatType = .iso || includesB dateStr ['-'] then
    match (jsSplit '-' dateStr).map parseIntJS with
    | [p0, p1, p2] => .ok (p0, p1.map (fun v => v - 1), p2)
    | _ => .error ("Invalid ISO date format: ".toList ++ dateStr)
  else
    match (jsSplit '/' dateStr).map parseIntJS with
    | [p0, p1, p2] =>
      .ok (p2.map (fun y => if y < 100 then y + 2000 else y),
           p1.map (fun v => v - 1), p0)
    | _ => .error ("Invalid date format: ".toList ++ dateStr)

/-- The time block of `parseTimestamp` (src/js/parser.js lines 154-182):
the resulting `(hours, minutes, seconds)` arguments after the AM/PM strip
and the 12-hour adjustment, or the `MalformedTimestamp` error of fewer
than two colon-separated parts. -/
def parseTimePart (timeStr : Str) : Except Str (Option ℤ × Option ℤ × Option ℤ) :=
  let timeUpper := jsUpper timeStr
  let isPM := includesB timeUpper "PM".toList
  let isAM := includesB timeUpper "AM".toList
  let cleanTime := jsTrim (stripAmPm timeStr)
  let timeParts := (jsSplit ':' cleanTime).map parseIntJS
  match timeParts with
  | t0 :: t1 :: restParts =>
    let seconds : Option ℤ :=
      match restParts with
      | [t2] => t2
      | _ => some 0
    let hours : Option ℤ :=
      if isAM || isPM then
        t0.map (fun h =>
          if isPM ∧ h ≠ 12 then h + 12
          else if isAM ∧ h = 12 then 0
          else h)
      else t0
    .ok (hours, t1, seconds)
  | _ => .error ("Invalid time format: ".toList ++ timeStr)

/-- `parseTimestamp` (src/js/parser.js lines 124-185).  `Except` models the
two `throw new Error(...)` sites (`MalformedTimestamp`). -/
def parseTimestampE (dateStr timeStr : Str) (formatType : FormatType) :
    Except Str DateArgs :=
  match parseDatePart dateStr formatType with
  | .error e => .error e
  | .ok (year, month, day) =>
    match parseTimePart timeStr with
    | .error e => .error e
    | .ok (hours, minutes, seconds) => .ok ⟨year, month, day, hours, minutes, seconds⟩

/-- The 12-hour rule of the spec, resolved against the capture's AM/PM
marker: if PM and the hour is not 12, add 12; if AM and the hour is 12,
set it to 0. -/
def hoursSpec (tc : TimeCap) : Option ℤ :=
  match tc.ap with
  | none => parseIntJS tc.h
  | some p =>
    (parseIntJS tc.h).map (fun h =>
      if p.2 = 'P' ∧ h ≠ 12 then h + 12
      else if p.2 = 'A' ∧ h = 12 then 0
      else h)

/-- The seconds component: the optional second capture, default 0. -/
def secondsSpec (tc : TimeCap) : Option ℤ :=
  match tc.s with
  | some ss => parseIntJS ss
  | none => some 0

/-! ## The tokenizer loop (`parseWhatsAppChat`) -/

/-- A parsed message record (the parser's `Message` objects). -/
structure PMsg where
  timestamp : DateArgs
  participant : Str
  content : Str
  isSystem : Bool
  isMedia : Bool
  deriving Repr, DecidableEq

/-- The continuation-line step on a parsed message record (src/js/parser.js
lines 93-99), identical to `appendContinuation` on the content and media
fields. -/
def appendContinuationP (m : PMsg) (line : Str) : PMsg :=
  { m with
    content := m.content ++ '\n' :: line,
    isMedia := if isMediaMessage line then true else m.isMedia }

/-- The error message of the empty-input check. -/
def emptyInputError : Str := "File content is empty".toList

/-- The error message of the zero-records check. -/
def noMessagesError : Str :=
  "No valid messages found in file. Please ensure this is a WhatsApp chat export.".toList

/-- The line loop of `parseWhatsAppChat` (src/js/parser.js lines 39-112)
with its state: the in-progress message and the flushed messages, ending
with the trailing flush and the zero-records check. -/
def tokenize : List Str → Option PMsg → List PMsg → Except Str (List PMsg)
  | [], cur, msgs =>
    let msgs := match cur with | some m => msgs ++ [m] | none => msgs
    if msgs.length = 0 then .error noMessagesError else .ok msgs
  | rawLine :: rest, cur, msgs =>
    let line := jsTrim rawLine
    if line.length = 0 then tokenize rest cur msgs
    else
      match matchLine line with
      | some (rm, fmt) =>
        let msgs := match cur with | some m => msgs ++ [m] | none => msgs
        match parseTimestampE rm.date.render rm.time.render fmt with
        | .error e => .error e
        | .ok ts =>
          let participant := jsTrim rm.name
          let content := jsTrim rm.content
          tokenize rest
            (some ⟨ts, participant, content,
                   isSystemMessage content participant, isMediaMessage content⟩)
            msgs
      | none =>
        match cur with
        | some m => tokenize rest (some (appendContinuationP m line)) msgs
        | none => tokenize rest cur msgs

/-- `parseWhatsAppChat` (src/js/parser.js lines 21-115). -/
def parseWhatsAppChat (fileContent : Str) : Except Str (List PMsg) :=
  if fileContent.isEmpty || (jsTrim fileContent).length = 0 then
    .error emptyInputError
  else
    tokenize (jsSplit '\n' fileContent) none []

/-- The number of input lines that match one of the three grammars after
trimming. -/
def matchedLineCount (input : Str) : ℕ :=
  (jsSplit '\n' input).countP (fun l => (matchLine (jsTrim l)).isSome)

/-- The relationship-health result as the spec describes it, with the one
amendment forced by the code: reciprocity `100 − |msgs_p1 − total/2| /
total * 100` clamped at 0; response score the two-participant average of
`100 − avgResponseTime/24h*100` clamped at 0; engagement from the average
word count (ramp 0→100 below 5 words, flat 100 up to 20, decay 100→0
toward 50); overall `0.4*reciprocity + 0.3*response + 0.3*engagement`
rounded to the nearest integer; and the qualitative label computed by the
fixed thresholds from the UNROUNDED weighted sum (not from the rounded
overall score). -/
def healthPerSpec (p1 p2 : PRec) : HealthResult :=
  let total : ℚ := (p1.messageCount : ℚ) + (p2.messageCount : ℚ)
  let reciprocity := max 0 (100 - |(p1.messageCount : ℚ) - total / 2| / total * 100)
  let response :=
    (max 0 (100 - getAverageResponseTime p1 / (24 * 60 * 60 * 1000) * 100) +
     max 0 (100 - getAverageResponseTime p2 / (24 * 60 * 60 * 1000) * 100)) / 2
  let avgWords :=
    ((if p1.messageCount = 0 then 0 else (p1.wordCount : ℚ) / p1.messageCount) +
     (if p2.messageCount = 0 then 0 else (p2.wordCount : ℚ) / p2.messageCount)) / 2
  let engagement :=
    if avgWords < 5 then (avgWords / 5) * 100
    else if avgWords > 20 then max 0 (100 - ((avgWords - 20) / 30) * 100)
    else 100
  let overall := (4/10) * reciprocity + (3/10) * response + (3/10) * engagement
  { overallHealth := jsRound overall
    reciprocityScore := jsRound reciprocity
    responseScore := jsRound response
    engagementScore := jsRound engagement
    interpretation := getHealthInterpretation overall }


/-- The sentiment result as the spec describes it, with the one amendment
forced by the code: every returned aggregate is computed from only the
included messages (nonempty content of at most 200 characters), except
that the overall average's denominator is the participant's TOTAL message
count, excluded messages included. -/
def sentimentPerSpec (score : String → ℚ) (msgs : List SMsg) : SentimentResult :=
  sentimentFinalize
    (((sortSMsgs msgs).filter sentimentIncluded).foldl
      (sentimentStep score) ⟨0, 0, 0, 0, [], []⟩)
    (sortSMsgs msgs).length


/-- The streak entry a maximal run would be recorded as: its length, its
first day, and its last day. -/
def runEntry (r : List ℤ) : StreakEntry :=
  ⟨r.length, r.headD 0, r.getLastD 0⟩


/-- All characters of a capture are decimal digits. -/
def allDigits (l : Str) : Prop := ∀ x ∈ l, isDigitCh x = true

/-- Well-formedness of a time capture, as guaranteed by the matchers:
digit hour and minute runs (nonempty), an optional nonempty digit second
run, and an optional AM/PM marker made of a whitespace run and the letter
'A' or 'P'. -/
def TimeCapWF (tc : TimeCap) : Prop :=
  allDigits tc.h ∧ tc.h ≠ [] ∧ allDigits tc.m ∧ tc.m ≠ [] ∧
  (∀ ss, tc.s = some ss → allDigits ss ∧ ss ≠ []) ∧
  (∀ ws c, tc.ap = some (ws, c) →
    (∀ x ∈ ws, isJsWs x = true) ∧ (c = 'A' ∨ c = 'P'))


/-- Well-formedness of a date capture, as guaranteed by the matchers: all
three captured runs are digit runs. -/
def DateCapWF : DateCap → Prop
  | .slash d1 d2 d3 => allDigits d1 ∧ allDigits d2 ∧ allDigits d3
  | .isoD y m d => allDigits y ∧ allDigits m ∧ allDigits d

/-- The year argument `parseTimestamp` builds from a date capture: third
slash part with the two-digit-year adjustment, or first ISO part. -/
def dateYearSpec : DateCap → Option ℤ
  | .slash _ _ d3 => (parseIntJS d3).map (fun y => if y < 100 then y + 2000 else y)
  | .isoD y _ _ => parseIntJS y

/-- The month argument (0-based): second part of either date style,
minus 1. -/
def dateMonthSpec : DateCap → Option ℤ
  | .slash _ d2 _ => (parseIntJS d2).map (fun v => v - 1)
  | .isoD _ m _ => (parseIntJS m).map (fun v => v - 1)

/-- The day argument: first slash part, or third ISO part. -/
def dateDaySpec : DateCap → Option ℤ
  | .slash d1 _ _ => parseIntJS d1
  | .isoD _ _ d => parseIntJS d


/-- The record count the tokenizer state is worth: flushed records, the
in-progress record, and the matched lines still to come. -/
def tokCount (lines : List Str) (cur : Option PMsg) (msgs : List PMsg) : ℕ :=
  msgs.length + (match cur with | some _ => 1 | none => 0)
    + lines.countP (fun l => (matchLine (jsTrim l)).isSome)


/-! ## Shared lemmas -/

/-- A timestamp-sorted list is fixed by `sortByTime`. -/
theorem sortByTime_sorted_eq (msgs : List AMsg)
    (h : List.Pairwise (fun a b => a.t ≤ b.t) msgs) : sortByTime msgs = msgs := by
  unfold sortByTime
  apply List.mergeSort_of_sorted
  simpa using h

/-- Claim C5.  During tokenization, the media flag of the in-progress
message is monotone under continuation lines: after appending any sequence
of continuation lines, the flag is set exactly when it was already set or
some appended line matches a media indicator — so a true flag never
reverts, and a false flag becomes true exactly when some continuation line
is a media line. -/
theorem claim_C5_continuation_media_monotone (m : CurMsg) (lines : List Str) :
    (lines.foldl appendContinuation m).isMedia
      = (m.isMedia || lines.any isMediaMessage) := by
  induction lines generalizing m with
  | nil => simp
  | cons l ls ih =>
    simp only [List.foldl_cons, List.any_cons, ih]
    unfold appendContinuation
    cases h : isMediaMessage l <;> cases hm : m.isMedia <;> simp [h, hm]

/-- Claim C10.  Adding a media or empty-content message to a participant
record increments only the message count and the stored message list;
every other field is unchanged. -/
theorem claim_C10_media_empty_frame (f : String → List String) (s : PState) (m : AMsg)
    (h : m.isMedia = true ∨ m.content = "") :
    addMessage f s m
      = { s with messageCount := s.messageCount + 1, messages := s.messages ++ [m] } := by
  unfold addMessage
  rcases h with h | h
  · simp [h]
  · simp [h]

/-- Witness for C10 at an empty-content message. -/
theorem claim_C10_media_empty_frame_witness :
    (let s : PState := ⟨"Alice", 3, 4, 5, 6, [("x", 1)], [], [2], [7], 1, 1, 1⟩
     let m : AMsg := ⟨"Alice", 0, "", false⟩
     (m.isMedia = true ∨ m.content = "") ∧
       addMessage (fun _ => []) s m
         = { s with messageCount := s.messageCount + 1, messages := s.messages ++ [m] }) := by
  exact ⟨Or.inr rfl, claim_C10_media_empty_frame (fun _ => []) _ _ (Or.inr rfl)⟩

/-- The inner scan of `calculateResponseTimes` only ever returns a message
from a different participant. -/
theorem firstOtherParticipant_ne (p : String) (l : List AMsg) (n : AMsg)
    (h : firstOtherParticipant p l = some n) : n.participant ≠ p := by
  induction l with
  | nil => exact absurd h (by simp [firstOtherParticipant])
  | cons m rest ih =>
    unfold firstOtherParticipant at h
    by_cases hm : m.participant ≠ p
    · rw [if_pos hm] at h
      cases h
      exact hm
    · rw [if_neg hm] at h
      exact ih h

/-- Every recorded sample of the sorted scan is a valid (< 24h) delta
recorded on a responder distinct from the answered author. -/
theorem responseSamplesSorted_mem (l : List AMsg) (s : RSample)
    (h : s ∈ responseSamplesSorted l) :
    s.delta < 24 * 60 * 60 * 1000 ∧ s.responder ≠ s.origin := by
  induction l with
  | nil => exact absurd h (by simp [responseSamplesSorted])
  | cons m rest ih =>
    unfold responseSamplesSorted at h
    rcases List.mem_append.mp h with h1 | h2
    · split at h1
      · simp at h1
      · rename_i n hf
        split at h1
        · rename_i hv
          simp only [List.mem_singleton] at h1
          subst h1
          exact ⟨by simpa [isValidResponseTime] using hv,
                 firstOtherParticipant_ne _ _ _ hf⟩
        · simp at h1
    · exact ih h2

/-- Claim C4.  Every response-time sample recorded by
`calculateResponseTimes` has a delta strictly below 24 hours and is
recorded on a participant different from the author of the answered
message: no sample of 24h or more exists, and no participant receives a
sample for responding to their own message. -/
theorem claim_C4_response_time_attribution (msgs : List AMsg) (s : RSample)
    (h : s ∈ calculateResponseTimes msgs) :
    s.delta < 24 * 60 * 60 * 1000 ∧ s.responder ≠ s.origin :=
  responseSamplesSorted_mem _ _ h

/-- Witness for C4: the spec's end-to-end example (Bob answers Alice after
300000 ms). -/
theorem claim_C4_response_time_attribution_witness :
    (⟨"Bob", "Alice", 300000⟩ : RSample) ∈
        calculateResponseTimes
          [⟨"Alice", 0, "Hello", false⟩, ⟨"Bob", 300000, "Hi Alice", false⟩] ∧
      (300000 : ℤ) < 24 * 60 * 60 * 1000 ∧ ("Bob" : String) ≠ "Alice" := by
  have hmem : (⟨"Bob", "Alice", 300000⟩ : RSample) ∈
      calculateResponseTimes
        [⟨"Alice", 0, "Hello", false⟩, ⟨"Bob", 300000, "Hi Alice", false⟩] := by
    unfold calculateResponseTimes
    rw [sortByTime_sorted_eq _ (by norm_num)]
    simp [responseSamplesSorted, firstOtherParticipant, isValidResponseTime]
  exact ⟨hmem, claim_C4_response_time_attribution _ _ hmem⟩

/-- Claim C3.  For any gap `g ≥ 0` between two consecutive
timestamp-sorted messages, the starter-detection, conversation-length, and
initiator-pattern analyzers classify the gap identically through the one
shared predicate `isNewConversation`: the second message is counted as a
starter (and a second conversation begins) exactly when `g` exceeds two
hours; a gap of exactly two hours is a non-boundary in all three. -/
theorem claim_C3_boundary_consistent (t g : ℤ) (A B : String)
    (hAB : A ≠ B) (hg : 0 ≤ g) :
    (conversationStartersCount [⟨A, t, "", false⟩, ⟨B, t + g, "", false⟩] B
        = if isNewConversation g then 1 else 0) ∧
    ((analyzeConversationLengths [⟨A, t, "", false⟩, ⟨B, t + g, "", false⟩]).total
        = if isNewConversation g then 2 else 1) ∧
    (initiatorStartsCount [⟨A, t, "", false⟩, ⟨B, t + g, "", false⟩] B
        = if isNewConversation g then 1 else 0) ∧
    (isNewConversation g = decide (g > 2 * 60 * 60 * 1000)) ∧
    isNewConversation (2 * 60 * 60 * 1000 : ℤ) = false := by
  have hsort :
      sortByTime [⟨A, t, "", false⟩, ⟨B, t + g, "", false⟩]
        = [⟨A, t, "", false⟩, ⟨B, t + g, "", false⟩] :=
    sortByTime_sorted_eq _ (by simp; omega)
  have hgap : t + g - t = g := by ring
  refine ⟨?_, ?_, ?_, ?_, by simp [isNewConversation]⟩
  · unfold conversationStartersCount
    rw [hsort]
    simp only [startersAux, hgap]
    cases hb : isNewConversation g <;> simp [hb, hAB]
  · unfold analyzeConversationLengths splitConversations
    rw [hsort]
    simp only [splitConversationsAux, hgap]
    cases hb : isNewConversation g <;> simp [hb]
  · unfold initiatorStartsCount
    rw [hsort]
    simp only [initiatorAux, hgap]
    cases hb : isNewConversation g <;> simp [hb, hAB]
  · simp [isNewConversation]

/-- Witness for C3 at the exact two-hour gap: all three analyzers agree it
is not a boundary. -/
theorem claim_C3_boundary_consistent_witness :
    conversationStartersCount
        [⟨"A", 0, "", false⟩, ⟨"B", 0 + 7200000, "", false⟩] "B" = 0 ∧
      (analyzeConversationLengths
        [⟨"A", 0, "", false⟩, ⟨"B", 0 + 7200000, "", false⟩]).total = 1 ∧
      initiatorStartsCount
        [⟨"A", 0, "", false⟩, ⟨"B", 0 + 7200000, "", false⟩] "B" = 0 := by
  have h := claim_C3_boundary_consistent 0 7200000 "A" "B" (by decide) (by norm_num)
  have hb : isNewConversation (7200000 : ℤ) = false := by simp [isNewConversation]
  rw [hb] at h
  exact ⟨by simpa using h.1, by simpa using h.2.1, by simpa using h.2.2.1⟩

/-- Counterexample for claim C9 (qualitative label).  Two participants with
10 messages and 100 words each and one 58752000 ms response-time sample a
piece give reciprocity 100, response score 32, engagement 100, so the
unrounded weighted sum is 79.6: the overall score is reported as
`Math.round(79.6) = 80`, yet the label is computed from 79.6 and is
"Good" — while the claim's thresholds (≥ 80 → excellent) applied to the
reported overall score of 80 would require "Excellent". -/
theorem claim_C9_label_counterexample :
    (calculateRelationshipHealth
        [⟨"A", 10, 100, [58752000]⟩, ⟨"B", 10, 100, [58752000]⟩]).map
        (fun r => (r.overallHealth, r.interpretation))
      = some (80, "Good") := by
  unfold calculateRelationshipHealth
  simp only [Option.map]
  norm_num [getAverageResponseTime, wordScoreOf]
  constructor
  · unfold jsRound
    rw [Int.floor_eq_iff]
    norm_num
  · unfold getHealthInterpretation
    rw [if_neg (by norm_num), if_pos (by norm_num)]

/-- Claim C9, amended.  Relationship-health scoring returns the "not
applicable" result (`null`) for every participant list whose length is not
exactly 2; for exactly two participants it returns the spec's scores with
the overall score equal to the rounded weighted sum
`0.4*reciprocity + 0.3*response + 0.3*engagement` — but the qualitative
label is computed from the unrounded weighted sum, which can disagree with
the label the thresholds would give the rounded overall score. -/
theorem claim_C9_relationship_health :
    (∀ ps : List PRec, ps.length ≠ 2 → calculateRelationshipHealth ps = none) ∧
    (∀ p1 p2 : PRec,
        calculateRelationshipHealth [p1, p2] = some (healthPerSpec p1 p2)) := by
  constructor
  · intro ps hps
    match ps with
    | [] => rfl
    | [_] => rfl
    | [_, _] => exact absurd rfl hps
    | _ :: _ :: _ :: _ => rfl
  · intro p1 p2
    unfold calculateRelationshipHealth healthPerSpec
    simp only [Option.some.injEq]
    have hmul : ∀ a b c : ℚ,
        a * (4/10) + b * (3/10) + c * (3/10)
          = (4/10) * a + (3/10) * b + (3/10) * c := by
      intro a b c; ring
    rw [hmul]
    rfl

/-- Witness for C9: one participant is "not applicable", and a concrete
two-participant index gets the spec scores. -/
theorem claim_C9_relationship_health_witness :
    calculateRelationshipHealth [⟨"A", 2, 20, []⟩] = none ∧
      calculateRelationshipHealth [⟨"A", 2, 20, []⟩, ⟨"B", 2, 20, []⟩]
        = some (healthPerSpec ⟨"A", 2, 20, []⟩ ⟨"B", 2, 20, []⟩) :=
  ⟨claim_C9_relationship_health.1 [⟨"A", 2, 20, []⟩] (by decide),
   claim_C9_relationship_health.2 ⟨"A", 2, 20, []⟩ ⟨"B", 2, 20, []⟩⟩

/-- A message that is not `sentimentIncluded` leaves the sentiment
accumulator untouched (the loop's two early returns). -/
theorem sentimentStep_skip (score : String → ℚ) (st : SentState) (m : SMsg)
    (h : sentimentIncluded m = false) : sentimentStep score st m = st := by
  unfold sentimentStep
  by_cases h1 : jsTrim m.content.toList = []
  · rw [if_pos h1]
  · rw [if_neg h1]
    have h2 : m.content.length > 200 := by
      unfold sentimentIncluded at h
      rw [Bool.and_eq_false_iff] at h
      rcases h with h | h
      · exact absurd (List.isEmpty_eq_false_iff_exists_mem.mpr
          (List.exists_mem_of_ne_nil _ h1)) (by simpa using h)
      · simpa using h
    rw [if_pos h2]

/-- Folding the sentiment step over a list is folding it over the included
sublist. -/
theorem sentimentFold_filter (score : String → ℚ) (l : List SMsg) (st : SentState) :
    l.foldl (sentimentStep score) st
      = (l.filter sentimentIncluded).foldl (sentimentStep score) st := by
  induction l generalizing st with
  | nil => rfl
  | cons m rest ih =>
    by_cases hm : sentimentIncluded m = true
    · rw [List.foldl_cons, List.filter_cons, if_pos hm, List.foldl_cons, ih]
    · rw [Bool.not_eq_true] at hm
      rw [List.foldl_cons, List.filter_cons, sentimentStep_skip _ _ _ hm, ih]
      rw [hm]
      simp

/-- Claim C2, amended.  Messages longer than 200 characters (and
empty/whitespace-only messages) are excluded from the sentiment score sum,
the positive/negative/neutral counts, the monthly trend buckets, and the
top-positive/top-negative lists, regardless of their lexical content — but
the overall average is NOT computed as if they were absent: its
denominator is the participant's total message count, so an excluded
message still dilutes the overall score. -/
theorem claim_C2_sentiment_exclusion (score : String → ℚ) (msgs : List SMsg) :
    analyzeSentiment score msgs = sentimentPerSpec score msgs := by
  simp only [analyzeSentiment, sentimentPerSpec]
  conv_lhs => rw [sentimentFold_filter]

/-- Counterexample for claim C2.  With a scorer giving "good" a raw score
of 3, a participant whose messages are `"good"` and a 201-character
message has overall sentiment `(3/10)/2 = 3/20`; with the long message
truly excluded from the overall aggregate the result would be
`(3/10)/1 = 3/10`.  The long message is excluded from the score sum but
still counted in the overall average's denominator, so it is NOT excluded
from every returned aggregate. -/
theorem claim_C2_overall_counterexample :
    (analyzeSentiment (fun s => if s = "good" then (3 : ℚ) else 7)
        [⟨"good", 0, "2024-01"⟩,
         ⟨String.mk (List.replicate 201 'x'), 1, "2024-01"⟩]).overall = 3/20 ∧
    (analyzeSentiment (fun s => if s = "good" then (3 : ℚ) else 7)
        [⟨"good", 0, "2024-01"⟩]).overall = 3/10 := by
  have hskip :
      sentimentIncluded ⟨String.mk (List.replicate 201 'x'), 1, "2024-01"⟩ = false := by
    unfold sentimentIncluded
    rw [Bool.and_eq_false_iff]
    right
    show decide ((List.replicate 201 'x').length ≤ 200) = false
    rw [List.length_replicate]
    decide
  have hfin : ∀ (st : SentState) (denom : ℕ),
      (sentimentFinalize st denom).overall
        = if denom > 0 then st.totalScore / denom else 0 := fun _ _ => rfl
  have hts :
      (sentimentStep (fun s => if s = "good" then (3 : ℚ) else 7)
        ⟨0, 0, 0, 0, [], []⟩ ⟨"good", 0, "2024-01"⟩).totalScore = 3/10 := by
    unfold sentimentStep
    rw [if_neg (by decide), if_neg (by decide)]
    show (0 : ℚ) + analyzeMessageSentiment _ "good" = 3/10
    unfold analyzeMessageSentiment
    rw [if_neg (by decide),
        show (fun s => if s = "good" then (3 : ℚ) else 7) "good" = 3 from rfl]
    norm_num
  have hsort2 :
      sortSMsgs [⟨"good", 0, "2024-01"⟩,
        ⟨String.mk (List.replicate 201 'x'), 1, "2024-01"⟩]
        = [⟨"good", 0, "2024-01"⟩,
           ⟨String.mk (List.replicate 201 'x'), 1, "2024-01"⟩] := by
    unfold sortSMsgs
    exact List.mergeSort_of_sorted (by norm_num)
  have hsort1 :
      sortSMsgs [⟨"good", 0, "2024-01"⟩] = [⟨"good", 0, "2024-01"⟩] :=
    List.mergeSort_singleton _
  constructor
  · simp only [analyzeSentiment]
    rw [hsort2]
    simp only [List.foldl_cons, List.foldl_nil]
    rw [sentimentStep_skip _ _ _ hskip, hfin, hts]
    norm_num
  · simp only [analyzeSentiment]
    rw [hsort1]
    simp only [List.foldl_cons, List.foldl_nil]
    rw [hfin, hts]
    norm_num

/-- Claim C1 fails on the code: the activity-trend division is unguarded.
For an index whose messages all share one timestamp (here a single
message), both period day counts are `Math.ceil(0) = 0`, both period
averages are `1/0 = Infinity`, and the percentage change
`((Infinity − Infinity) / Infinity) * 100` is `NaN`, which is returned in
the trend result (the label falls through to "stable" because `NaN`
comparisons are false). -/
theorem claim_C1_unguarded_trend_division :
    (analyzeActivityTrend [⟨"Alice", 0, "hi", false⟩]).percentageChange = JSNum.nan ∧
    (analyzeActivityTrend [⟨"Alice", 0, "hi", false⟩]).trend = "stable" := by
  have hs : sortByTime [⟨"Alice", 0, "hi", false⟩] = [⟨"Alice", 0, "hi", false⟩] :=
    List.mergeSort_singleton _
  have h : analyzeActivityTrend [⟨"Alice", 0, "hi", false⟩]
      = { trend := "stable", percentageChange := JSNum.nan,
          comparison := some
            ( { messages := 1, days := 0, avgPerDay := JSNum.inf,
                startDate := 0, endDate := 0 },
              { messages := 1, days := 0, avgPerDay := JSNum.inf,
                startDate := 0, endDate := 0 } ) } := by
    simp only [analyzeActivityTrend, hs]
    norm_num [jsDiv, jsSub, jsMul, jsGtQ, jsLtQ, List.filter, List.getLast]
  rw [h]
  exact ⟨rfl, rfl⟩

/-- `getLastD` of a nonempty list ignores the default. -/
theorem getLastD_congr {α : Type} (l : List α) (h : l ≠ []) (d1 d2 : α) :
    l.getLastD d1 = l.getLastD d2 := by
  rw [List.getLastD_eq_getLast?, List.getLastD_eq_getLast?, List.getLast?_eq_getLast _ h]
  rfl

/-- `headD` of a reversed list is `getLastD`. -/
theorem headD_reverse (l : List ℤ) (d : ℤ) : l.reverse.headD d = l.getLastD d := by
  rw [List.headD_eq_head?, List.head?_reverse, List.getLastD_eq_getLast?]

/-- `getLastD` of a reversed list is `headD`. -/
theorem getLastD_reverse (l : List ℤ) (d : ℤ) : l.reverse.getLastD d = l.headD d := by
  rw [List.getLastD_eq_getLast?, List.getLast?_reverse, List.headD_eq_head?]

/-- `dropLast` of a cons with a nonempty tail. -/
theorem dropLast_cons_ne {α : Type} (a : α) (l : List α) (h : l ≠ []) :
    ((a :: l) : List α).dropLast = a :: l.dropLast := by
  cases l with
  | nil => simp at h
  | cons b t => rfl

/-- Shifting the base of a `max` fold. -/
theorem foldr_max_shift (xs : List ℕ) (c : ℕ) :
    xs.foldr max c = max (xs.foldr max 0) c := by
  induction xs with
  | nil => simp
  | cons x t ih => simp only [List.foldr_cons, ih]; omega

/-- The run decomposition is never empty. -/
theorem runsAux_ne_nil (ds : List ℤ) (prev : ℤ) (cur : List ℤ) :
    runsAux prev cur ds ≠ [] := by
  induction ds generalizing prev cur with
  | nil => simp [runsAux]
  | cons d rest ih =>
    unfold runsAux
    by_cases hd : d - prev = 1
    · rw [if_pos hd]; exact ih _ _
    · rw [if_neg hd]; simp

/-- Every run of the decomposition of a nonempty in-progress run is
nonempty. -/
theorem runsAux_mem_ne_nil (ds : List ℤ) (prev : ℤ) (cur : List ℤ) (hcur : cur ≠ [])
    (r : List ℤ) (hr : r ∈ runsAux prev cur ds) : r ≠ [] := by
  induction ds generalizing prev cur with
  | nil =>
    unfold runsAux at hr
    simp only [List.mem_singleton] at hr
    subst hr
    simpa using hcur
  | cons d rest ih =>
    unfold runsAux at hr
    by_cases hd : d - prev = 1
    · rw [if_pos hd] at hr
      exact ih _ _ (by simp) hr
    · rw [if_neg hd] at hr
      rcases List.mem_cons.mp hr with h1 | h2
      · subst h1; simpa using hcur
      · exact ih _ _ (by simp) h2

/-- The streak loop computed against the run decomposition: starting from a
nonempty in-progress run `cur` (most recent day first, so the loop state is
its length, its last element as start date and its head as end date), the
loop ends with the final run's data, the longest length over the earlier
runs folded into `ls`, and the entries for every earlier run of length at
least 2 appended to `acc`. -/
theorem streaksLoop_spec (ds : List ℤ) :
    ∀ (prev : ℤ) (cur : List ℤ), cur ≠ [] →
    ∀ (ls : ℕ) (acc : List StreakEntry),
    streaksLoop prev cur.length ls (cur.getLastD 0) (cur.headD 0) acc ds
      = (((runsAux prev cur ds).getLastD []).length,
         max ls (((runsAux prev cur ds).dropLast.map List.length).foldr max 0),
         ((runsAux prev cur ds).getLastD []).headD 0,
         ((runsAux prev cur ds).getLastD []).getLastD 0,
         acc ++ ((runsAux prev cur ds).dropLast.filter
            (fun r => r.length ≥ 2)).map runEntry) := by
  induction ds with
  | nil =>
    intro prev cur hcur ls acc
    simp [streaksLoop, runsAux, headD_reverse, getLastD_reverse]
  | cons d rest ih =>
    intro prev cur hcur ls acc
    by_cases hd : d - prev = 1
    · have hstep :
          streaksLoop prev cur.length ls (cur.getLastD 0) (cur.headD 0) acc (d :: rest)
            = streaksLoop d (cur.length + 1) ls (cur.getLastD 0) d acc rest := by
        simp only [streaksLoop]
        rw [if_pos hd]
      have hrun : runsAux prev cur (d :: rest) = runsAux d (d :: cur) rest := by
        simp only [runsAux]
        rw [if_pos hd]
      have hlast : ((d :: cur) : List ℤ).getLastD 0 = cur.getLastD 0 := by
        rw [List.getLastD_cons]
        exact getLastD_congr _ hcur _ _
      have := ih d (d :: cur) (by simp) ls acc
      rw [List.length_cons, hlast] at this
      rw [hstep, hrun]
      exact this
    · have hstep :
          streaksLoop prev cur.length ls (cur.getLastD 0) (cur.headD 0) acc (d :: rest)
            = streaksLoop d 1 (max ls cur.length)  d d
                (if cur.length ≥ 2 then
                  acc ++ [⟨cur.length, cur.getLastD 0, cur.headD 0⟩] else acc) rest := by
        simp only [streaksLoop]
        rw [if_neg hd]
      have hrun : runsAux prev cur (d :: rest) = cur.reverse :: runsAux d [d] rest := by
        simp only [runsAux]
        rw [if_neg hd]
      have hne : runsAux d [d] rest ≠ [] := runsAux_ne_nil _ _ _
      have := ih d [d] (by simp) (max ls cur.length)
        (if cur.length ≥ 2 then
          acc ++ [⟨cur.length, cur.getLastD 0, cur.headD 0⟩] else acc)
      simp only [List.length_singleton, List.getLastD_cons, List.getLastD_nil,
        List.headD_cons] at this
      rw [hstep, this, hrun]
      simp only [Prod.mk.injEq]
      refine ⟨?_, ?_, ?_, ?_, ?_⟩
      · rw [List.getLastD_cons]
        exact congrArg List.length (getLastD_congr _ hne _ _)
      · rw [dropLast_cons_ne _ _ hne, List.map_cons, List.foldr_cons,
            List.length_reverse]
        omega
      · rw [List.getLastD_cons]
        exact congrArg (fun l => List.headD l 0) (getLastD_congr _ hne _ _)
      · rw [List.getLastD_cons]
        exact congrArg (fun l => List.getLastD l 0) (getLastD_congr _ hne _ _)
      · rw [dropLast_cons_ne _ _ hne, List.filter_cons]
        by_cases h2 : cur.length ≥ 2
        · rw [if_pos h2, if_pos (show decide (cur.reverse.length ≥ 2) = true by
            simpa using h2)]
          rw [List.map_cons,
              show runEntry cur.reverse
                  = ⟨cur.length, cur.getLastD 0, cur.headD 0⟩ from by
                unfold runEntry
                rw [List.length_reverse, headD_reverse, getLastD_reverse],
              List.append_assoc]
          rfl
        · rw [if_neg h2, if_neg (show ¬decide (cur.reverse.length ≥ 2) = true by
            simpa using h2)]

/-- `getLastD` of a nonempty list is its `getLast`. -/
theorem getLastD_eq_getLast {α : Type} (l : List α) (h : l ≠ []) (d : α) :
    l.getLastD d = l.getLast h := by
  rw [List.getLastD_eq_getLast?, List.getLast?_eq_getLast _ h]
  rfl

/-- The streak analyzer against the maximal-run decomposition of the
distinct sorted message dates: longest streak, recorded entries, and the
final-run current streak governed by `today − lastDate ≤ 1`. -/
theorem calculateStreaks_runs (msgDays : List ℤ) (today : ℤ) (hne : msgDays ≠ []) :
    (calculateStreaks msgDays today).longestStreak
        = ((consecutiveRuns (msgDays.dedup.mergeSort (fun a b => a ≤ b))).map
            List.length).foldr max 0 ∧
    (calculateStreaks msgDays today).streaks
        = ((consecutiveRuns (msgDays.dedup.mergeSort (fun a b => a ≤ b))).filter
            (fun r => r.length ≥ 2)).map runEntry ∧
    (calculateStreaks msgDays today).currentStreak
        = (if today - (msgDays.dedup.mergeSort (fun a b => a ≤ b)).getLastD 0 ≤ 1
           then ((consecutiveRuns
              (msgDays.dedup.mergeSort (fun a b => a ≤ b))).getLastD []).length
           else 0) := by
  have hmsne : msgDays.dedup.mergeSort (fun a b => a ≤ b) ≠ [] := by
    intro hcontra
    have hp := List.mergeSort_perm msgDays.dedup (fun a b => a ≤ b)
    rw [hcontra] at hp
    exact hne ((List.dedup_eq_nil msgDays).mp (hp.symm.eq_nil))
  obtain ⟨d0, rest, hds⟩ := List.exists_cons_of_ne_nil hmsne
  have hloop := streaksLoop_spec rest d0 [d0] (by simp) 1 []
  simp only [List.length_singleton, List.getLastD_cons, List.getLastD_nil,
    List.headD_cons] at hloop
  unfold calculateStreaks
  rw [hds]
  dsimp only
  rw [hloop]
  dsimp only
  have hnrs : runsAux d0 [d0] rest ≠ [] := runsAux_ne_nil _ _ _
  have hlast1 : (runsAux d0 [d0] rest).getLastD []
      = (runsAux d0 [d0] rest).getLast hnrs := getLastD_eq_getLast _ hnrs _
  have hsplit : (runsAux d0 [d0] rest).dropLast
        ++ [(runsAux d0 [d0] rest).getLast hnrs] = runsAux d0 [d0] rest :=
    List.dropLast_append_getLast hnrs
  have hLge1 : ((runsAux d0 [d0] rest).getLast hnrs).length ≥ 1 := by
    have hmem := List.getLast_mem hnrs
    have := runsAux_mem_ne_nil rest d0 [d0] (by simp) _ hmem
    cases hc : (runsAux d0 [d0] rest).getLast hnrs with
    | nil => exact absurd hc this
    | cons a t => simp
  have hrs : consecutiveRuns (d0 :: rest) = runsAux d0 [d0] rest := rfl
  refine ⟨?_, ?_, ?_⟩
  · rw [hrs, hlast1]
    conv_rhs => rw [← hsplit]
    rw [List.map_append, List.foldr_append, List.map_singleton, List.foldr_cons,
        List.foldr_nil]
    rw [foldr_max_shift (List.map List.length (runsAux d0 [d0] rest).dropLast)
        (((runsAux d0 [d0] rest).getLast hnrs).length ⊔ 0)]
    omega
  · rw [hrs, hlast1]
    conv_rhs => rw [← hsplit]
    rw [List.filter_append, List.map_append]
    simp only [List.filter_singleton]
    by_cases h2 : ((runsAux d0 [d0] rest).getLast hnrs).length ≥ 2
    · rw [if_pos h2,
          show decide (((runsAux d0 [d0] rest).getLast hnrs).length ≥ 2) = true from
            by simpa using h2,
          Bool.cond_true]
      rfl
    · rw [if_neg h2,
          show decide (((runsAux d0 [d0] rest).getLast hnrs).length ≥ 2) = false from
            by simpa using h2,
          Bool.cond_false]
      simp
  · rw [hrs, hlast1,
        show ((d0 :: rest) : List ℤ).getLastD 0
          = ((d0 :: rest) : List ℤ).getLast (by simp) from
        getLastD_eq_getLast _ (by simp) _]

/-- Counterexample for claim C8 (current-streak activity).  With
evaluation date (day index) 0 and a single message dated day 5 — a future
date, so neither today nor yesterday — the claim requires current streak
0, but `daysSinceLastMessage = 0 − 5 = −5 ≤ 1` marks the final run active
and the code reports its length 1. -/
theorem claim_C8_future_date_counterexample :
    (calculateStreaks [5] 0).currentStreak = 1 := by
  have hs : ([5] : List ℤ).dedup.mergeSort (fun a b => a ≤ b) = [5] := by
    rw [show ([5] : List ℤ).dedup = [5] from by decide]
    exact List.mergeSort_singleton _
  unfold calculateStreaks
  rw [hs]
  decide

/-- Claim C8, amended.  Over the distinct sorted calendar dates: the
longest streak is the maximum length over all maximal runs of consecutive
days, a streak entry is recorded exactly for the runs of length at least
2 (with the run's first and last day), and the final run's length is
reported as current streak exactly when the last message date is
yesterday or later relative to the evaluation date (today, yesterday, or
any future date — not only today or yesterday), otherwise the current
streak is 0.  In particular, for messages on 2024-01-01 through
2024-01-05 and then 2024-01-10, the longest streak is 5. -/
theorem claim_C8_streak_detection :
    (∀ (msgDays : List ℤ) (today : ℤ), msgDays ≠ [] →
      (calculateStreaks msgDays today).longestStreak
          = ((consecutiveRuns (msgDays.dedup.mergeSort (fun a b => a ≤ b))).map
              List.length).foldr max 0 ∧
      (calculateStreaks msgDays today).streaks
          = ((consecutiveRuns (msgDays.dedup.mergeSort (fun a b => a ≤ b))).filter
              (fun r => r.length ≥ 2)).map runEntry ∧
      (calculateStreaks msgDays today).currentStreak
          = (if today - (msgDays.dedup.mergeSort (fun a b => a ≤ b)).getLastD 0 ≤ 1
             then ((consecutiveRuns
                (msgDays.dedup.mergeSort (fun a b => a ≤ b))).getLastD []).length
             else 0)) ∧
    (calculateStreaks [0, 1, 2, 3, 4, 9] 9).longestStreak = 5 := by
  refine ⟨fun msgDays today hne => calculateStreaks_runs msgDays today hne, ?_⟩
  have hs : ([0, 1, 2, 3, 4, 9] : List ℤ).dedup.mergeSort (fun a b => a ≤ b)
      = [0, 1, 2, 3, 4, 9] := by
    rw [show ([0, 1, 2, 3, 4, 9] : List ℤ).dedup = [0, 1, 2, 3, 4, 9] from by decide]
    exact List.mergeSort_of_sorted (by decide)
  have h := (calculateStreaks_runs [0, 1, 2, 3, 4, 9] 9 (by decide)).1
  rw [hs] at h
  rw [h]
  decide

/-- Witness for C8: a two-day streak ending today is the longest streak,
is recorded as an entry, and is the active current streak. -/
theorem claim_C8_streak_detection_witness :
    ([0, 1] : List ℤ) ≠ [] ∧
      (calculateStreaks [0, 1] 1).longestStreak = 2 ∧
      (calculateStreaks [0, 1] 1).streaks = [⟨2, 0, 1⟩] ∧
      (calculateStreaks [0, 1] 1).currentStreak = 2 := by
  have h := claim_C8_streak_detection.1 [0, 1] 1 (by decide)
  have hs : ([0, 1] : List ℤ).dedup.mergeSort (fun a b => a ≤ b) = [0, 1] := by
    rw [show ([0, 1] : List ℤ).dedup = [0, 1] from by decide]
    exact List.mergeSort_of_sorted (by decide)
  rw [hs] at h
  refine ⟨by decide, ?_, ?_, ?_⟩
  · rw [h.1]; decide
  · rw [h.2.1]; decide
  · rw [h.2.2]; decide

/-! ## String lemmas for the parser -/

/-- Every list is a Boolean prefix of itself. -/
theorem isPrefixB_refl (l : Str) : isPrefixB l l = true := by
  induction l with
  | nil => rfl
  | cons c t ih => simp [isPrefixB, ih]

/-- A string ending in `sub` includes `sub`. -/
theorem includesB_of_suffix (a sub : Str) : includesB (a ++ sub) sub = true := by
  induction a with
  | nil =>
    cases sub with
    | nil => rfl
    | cons c t => simp [includesB, isPrefixB_refl]
  | cons x a' ih => simp [includesB, ih]

/-- The first character of an included substring occurs in the string. -/
theorem includesB_head_mem (l : Str) (c : Char) (s : Str)
    (h : includesB l (c :: s) = true) : c ∈ l := by
  induction l with
  | nil => simp [includesB] at h
  | cons x t ih =>
    simp only [includesB, Bool.or_eq_true] at h
    rcases h with h | h
    · unfold isPrefixB at h
      rcases Bool.and_eq_true_iff.mp h with ⟨h1, _⟩
      simp only [decide_eq_true_eq] at h1
      subst h1
      exact List.mem_cons_self _ _
    · exact List.mem_cons_of_mem _ (ih h)

/-- A string not containing `c` does not include any substring starting
with `c`. -/
theorem includesB_eq_false_of_not_mem (l : Str) (c : Char) (s : Str)
    (h : c ∉ l) : includesB l (c :: s) = false := by
  cases hb : includesB l (c :: s) with
  | false => rfl
  | true => exact absurd (includesB_head_mem _ _ _ hb) h

/-- Digit characters have code points at most 57. -/
theorem isDigitCh_toNat_le (x : Char) (h : isDigitCh x = true) : x.toNat ≤ 57 := by
  unfold isDigitCh at h
  rcases Bool.and_eq_true_iff.mp h with ⟨_, h2⟩
  simp only [decide_eq_true_eq] at h2
  exact h2

/-- `toUpper` fixes every character below the lowercase range. -/
theorem toUpper_eq_self_of_lt (c : Char) (h : c.toNat < 97) : c.toUpper = c := by
  unfold Char.toUpper
  rw [if_neg]
  omega

/-- `jsUpper` fixes strings of characters below the lowercase range. -/
theorem jsUpper_eq_self (l : Str) (h : ∀ x ∈ l, x.toNat < 97) : jsUpper l = l := by
  unfold jsUpper
  induction l with
  | nil => rfl
  | cons x t ih =>
    rw [List.map_cons, toUpper_eq_self_of_lt x (h x (by simp)),
        ih (fun y hy => h y (List.mem_cons_of_mem _ hy))]

/-- `dropWhile` is the identity when no character satisfies the
predicate. -/
theorem dropWhile_all_false (p : Char → Bool) (l : Str)
    (h : ∀ x ∈ l, p x = false) : l.dropWhile p = l := by
  cases l with
  | nil => rfl
  | cons x t => exact List.dropWhile_cons_of_neg (by simp [h x (by simp)])

/-- `jsTrim` is the identity on whitespace-free strings. -/
theorem jsTrim_eq_self (l : Str) (h : ∀ x ∈ l, isJsWs x = false) : jsTrim l = l := by
  unfold jsTrim
  rw [dropWhile_all_false _ _ h,
      dropWhile_all_false _ _ (fun x hx => h x (List.mem_reverse.mp hx)),
      List.reverse_reverse]

/-- `dropWhile` passes over a fully-satisfying prefix. -/
theorem dropWhile_append_all_true (p : Char → Bool) (a b : Str)
    (h : ∀ x ∈ a, p x = true) : (a ++ b).dropWhile p = b.dropWhile p := by
  induction a with
  | nil => rfl
  | cons x t ih =>
    rw [List.cons_append, List.dropWhile_cons_of_pos (h x (by simp))]
    exact ih (fun y hy => h y (List.mem_cons_of_mem _ hy))

/-- Splitting a separator-free string. -/
theorem jsSplit_not_mem (c : Char) (l : Str) (h : c ∉ l) : jsSplit c l = [l] := by
  induction l with
  | nil => rfl
  | cons x t ih =>
    unfold jsSplit
    rw [if_neg (by intro hx; exact h (hx ▸ List.mem_cons_self _ _)),
        ih (fun hc => h (List.mem_cons_of_mem _ hc))]

/-- Splitting peels off a separator-free first segment. -/
theorem jsSplit_append (c : Char) (a b : Str) (h : c ∉ a) :
    jsSplit c (a ++ c :: b) = a :: jsSplit c b := by
  induction a with
  | nil =>
    rw [List.nil_append]
    simp [jsSplit]
  | cons x t ih =>
    rw [List.cons_append]
    simp only [jsSplit]
    rw [if_neg (show ¬x = c from fun hx => h (hx ▸ List.mem_cons_self _ _)),
        ih (fun hc => h (List.mem_cons_of_mem _ hc))]

/-- `stripAmPm` on the empty string. -/
theorem stripAmPm_nil : stripAmPm [] = [] := by
  unfold stripAmPm
  rfl

/-- `stripAmPm` keeps a character at which no AM/PM match starts. -/
theorem stripAmPm_cons_none (x : Char) (rest : Str)
    (h : tryAmPm (x :: rest) = none) :
    stripAmPm (x :: rest) = x :: stripAmPm rest := by
  rw [stripAmPm.eq_def]
  dsimp only
  split
  · rename_i rest2 heq
    rw [heq] at h
    cases h
  · rfl

/-- `stripAmPm` drops a matched AM/PM marker. -/
theorem stripAmPm_cons_some (x : Char) (rest r : Str)
    (h : tryAmPm (x :: rest) = some r) :
    stripAmPm (x :: rest) = stripAmPm r := by
  rw [stripAmPm.eq_def]
  dsimp only
  split
  · rename_i rest2 heq
    rw [heq] at h
    cases h
    rfl
  · rename_i heq
    rw [heq] at h
    cases h

/-- No AM/PM match starts at a non-whitespace, non-`[AaPp]` character. -/
theorem tryAmPm_none (x : Char) (rest : Str) (hws : isJsWs x = false)
    (h1 : x ≠ 'A') (h2 : x ≠ 'a') (h3 : x ≠ 'P') (h4 : x ≠ 'p') :
    tryAmPm (x :: rest) = none := by
  unfold tryAmPm
  rw [List.dropWhile_cons_of_neg (by simp [hws])]
  cases rest with
  | nil => rfl
  | cons y t => simp [h1, h2, h3, h4]

/-- A whitespace run followed by `AM`/`PM` at the end is matched whole. -/
theorem tryAmPm_ws_apm (ws : Str) (c : Char)
    (hws : ∀ x ∈ ws, isJsWs x = true) (hc : c = 'A' ∨ c = 'P') :
    tryAmPm (ws ++ [c, 'M']) = some [] := by
  unfold tryAmPm
  rw [dropWhile_append_all_true _ _ _ hws,
      List.dropWhile_cons_of_neg (by rcases hc with h | h <;> subst h <;> decide)]
  rcases hc with h | h <;> subst h <;> simp

/-- `stripAmPm` erases a trailing whitespace-plus-`AM`/`PM` suffix. -/
theorem stripAmPm_ws_apm (ws : Str) (c : Char)
    (hws : ∀ x ∈ ws, isJsWs x = true) (hc : c = 'A' ∨ c = 'P') :
    stripAmPm (ws ++ [c, 'M']) = [] := by
  have htry := tryAmPm_ws_apm ws c hws hc
  cases hcase : ws ++ [c, 'M'] with
  | nil => exact absurd hcase (by simp)
  | cons x r =>
    rw [hcase] at htry
    rw [stripAmPm_cons_some x r [] htry]
    exact stripAmPm_nil

/-- A digit is not JS whitespace. -/
theorem digit_not_ws (x : Char) (h : isDigitCh x = true) : isJsWs x = false := by
  cases hw : isJsWs x with
  | false => rfl
  | true =>
    exfalso
    unfold isJsWs at hw
    simp only [Bool.or_eq_true, decide_eq_true_eq] at hw
    rcases hw with ((((h1 | h1) | h1) | h1) | h1) | h1 <;> subst h1 <;>
      exact absurd h (by decide)

/-- A digit differs from any non-digit character. -/
theorem digit_ne (x : Char) (h : isDigitCh x = true) (c : Char)
    (hc : isDigitCh c = false) : x ≠ c := by
  intro he
  subst he
  rw [h] at hc
  cases hc

/-- A JS whitespace character differs from any non-whitespace character. -/
theorem ws_ne (x : Char) (h : isJsWs x = true) (c : Char)
    (hc : isJsWs c = false) : x ≠ c := by
  intro he
  subst he
  rw [h] at hc
  cases hc

/-- Digits and whitespace lie below the lowercase range. -/
theorem ws_toNat_lt (x : Char) (h : isJsWs x = true) : x.toNat < 97 := by
  unfold isJsWs at h
  simp only [Bool.or_eq_true, decide_eq_true_eq] at h
  rcases h with ((((h1 | h1) | h1) | h1) | h1) | h1 <;> subst h1 <;> decide

/-- `stripAmPm` passes over a prefix at which no match can start. -/
theorem stripAmPm_clean_append (base tail : Str)
    (h : ∀ x ∈ base, isJsWs x = false ∧ x ≠ 'A' ∧ x ≠ 'a' ∧ x ≠ 'P' ∧ x ≠ 'p') :
    stripAmPm (base ++ tail) = base ++ stripAmPm tail := by
  induction base with
  | nil => rfl
  | cons x b ih =>
    obtain ⟨hw, hA, ha, hP, hp⟩ := h x (by simp)
    rw [List.cons_append, stripAmPm_cons_none x _ (tryAmPm_none _ _ hw hA ha hP hp),
        ih (fun y hy => h y (List.mem_cons_of_mem _ hy)), List.cons_append]

/-- Characters of the time capture before its AM/PM marker are digits or
colons. -/
theorem timeCore_chars (tc : TimeCap) (h : TimeCapWF tc) (x : Char)
    (hx : x ∈ tc.h ++ ':' :: tc.m ++
      (match tc.s with | none => [] | some ss => ':' :: ss)) :
    isDigitCh x = true ∨ x = ':' := by
  obtain ⟨hh, -, hm, -, hs, -⟩ := h
  cases hcs : tc.s with
  | none =>
    rw [hcs] at hx
    simp only [List.append_nil, List.mem_append, List.mem_cons] at hx
    rcases hx with h1 | h1 | h1
    · exact Or.inl (hh x h1)
    · exact Or.inr h1
    · exact Or.inl (hm x h1)
  | some ss =>
    rw [hcs] at hx
    simp only [List.mem_append, List.mem_cons] at hx
    rcases hx with (h1 | h1 | h1) | h1 | h1
    · exact Or.inl (hh x h1)
    · exact Or.inr h1
    · exact Or.inl (hm x h1)
    · exact Or.inr h1
    · exact Or.inl ((hs ss hcs).1 x h1)

/-- `stripAmPm` on the rendered time capture removes exactly the AM/PM
marker. -/
theorem stripAmPm_timeRender (tc : TimeCap) (h : TimeCapWF tc) :
    stripAmPm tc.render
      = tc.h ++ ':' :: tc.m ++
          (match tc.s with | none => [] | some ss => ':' :: ss) := by
  have hprops : ∀ x ∈ tc.h ++ ':' :: tc.m ++
      (match tc.s with | none => [] | some ss => ':' :: ss),
      isJsWs x = false ∧ x ≠ 'A' ∧ x ≠ 'a' ∧ x ≠ 'P' ∧ x ≠ 'p' := by
    intro x hx
    rcases timeCore_chars tc h x hx with hd | hd
    · exact ⟨digit_not_ws x hd, digit_ne x hd 'A' (by decide),
        digit_ne x hd 'a' (by decide), digit_ne x hd 'P' (by decide),
        digit_ne x hd 'p' (by decide)⟩
    · subst hd
      refine ⟨by decide, by decide, by decide, by decide, by decide⟩
  show stripAmPm ((tc.h ++ ':' :: tc.m ++
      (match tc.s with | none => [] | some ss => ':' :: ss)) ++
      (match tc.ap with | none => [] | some (ws, c) => ws ++ [c, 'M'])) = _
  rw [stripAmPm_clean_append _ _ hprops]
  cases hap : tc.ap with
  | none =>
    rw [show (match (none : Option (Str × Char)) with
        | none => ([] : Str) | some (ws, c) => ws ++ [c, 'M']) = [] from rfl,
      stripAmPm_nil, List.append_nil]
  | some p =>
    obtain ⟨ws, c⟩ := p
    obtain ⟨hws, hc⟩ := h.2.2.2.2.2 ws c hap
    rw [show (match (some (ws, c) : Option (Str × Char)) with
        | none => ([] : Str) | some (ws, c) => ws ++ [c, 'M']) = ws ++ [c, 'M'] from rfl,
      stripAmPm_ws_apm ws c hws hc, List.append_nil]

/-- The cleaned time string of a well-formed capture: trimming changes
nothing (no whitespace remains after the strip). -/
theorem cleanTime_timeRender (tc : TimeCap) (h : TimeCapWF tc) :
    jsTrim (stripAmPm tc.render)
      = tc.h ++ ':' :: tc.m ++
          (match tc.s with | none => [] | some ss => ':' :: ss) := by
  rw [stripAmPm_timeRender tc h]
  apply jsTrim_eq_self
  intro x hx
  rcases timeCore_chars tc h x hx with hd | hd
  · exact digit_not_ws x hd
  · subst hd
    decide

/-- Splitting the cleaned time string on `':'` yields the hour, minute,
and optional second captures. -/
theorem timeParts_timeRender (tc : TimeCap) (h : TimeCapWF tc) :
    jsSplit ':' (jsTrim (stripAmPm tc.render))
      = tc.h :: tc.m :: (match tc.s with | none => [] | some ss => [ss]) := by
  rw [cleanTime_timeRender tc h]
  obtain ⟨hh, -, hm, -, hs, -⟩ := h
  have hcolon_h : ':' ∉ tc.h := fun hmem => absurd (hh ':' hmem) (by decide)
  have hcolon_m : ':' ∉ tc.m := fun hmem => absurd (hm ':' hmem) (by decide)
  rw [List.append_assoc, List.cons_append, jsSplit_append ':' tc.h _ hcolon_h]
  congr 1
  cases hcs : tc.s with
  | none =>
    rw [show (match (none : Option Str) with
        | none => ([] : Str) | some ss => ':' :: ss) = [] from rfl, List.append_nil]
    exact jsSplit_not_mem ':' tc.m hcolon_m
  | some ss =>
    have hcolon_s : ':' ∉ ss := fun hmem => absurd ((hs ss hcs).1 ':' hmem) (by decide)
    rw [show (match (some ss : Option Str) with
        | none => ([] : Str) | some ss => ':' :: ss) = ':' :: ss from rfl,
      jsSplit_append ':' tc.m _ hcolon_m]
    congr 1
    exact jsSplit_not_mem ':' ss hcolon_s

/-- Every character of a well-formed time capture lies below the
lowercase range, so `toUpperCase` fixes the rendered capture. -/
theorem jsUpper_timeRender (tc : TimeCap) (h : TimeCapWF tc) :
    jsUpper tc.render = tc.render := by
  apply jsUpper_eq_self
  intro x hx
  have hx' : x ∈ (tc.h ++ ':' :: tc.m ++
      (match tc.s with | none => [] | some ss => ':' :: ss)) ++
      (match tc.ap with | none => [] | some (ws, c) => ws ++ [c, 'M']) := hx
  rcases List.mem_append.mp hx' with h1 | h1
  · rcases timeCore_chars tc h x h1 with hd | hd
    · have := isDigitCh_toNat_le x hd
      omega
    · subst hd
      decide
  · cases hap : tc.ap with
    | none =>
      rw [hap] at h1
      simp at h1
    | some p =>
      obtain ⟨ws, c⟩ := p
      obtain ⟨hws, hc⟩ := h.2.2.2.2.2 ws c hap
      rw [hap] at h1
      simp only [List.mem_append, List.mem_cons] at h1
      rcases h1 with h1 | h1 | h1 | h1
      · exact ws_toNat_lt x (hws x h1)
      · subst h1
        rcases hc with hc | hc <;> subst hc <;> decide
      · subst h1
        decide
      · simp at h1

/-- The AM/PM flags of `parseTimestamp` on a rendered time capture:
`timeUpper.includes("PM")` (resp. `"AM"`) holds exactly when the capture's
marker letter is 'P' (resp. 'A'). -/
theorem includes_marker_timeRender (tc : TimeCap) (h : TimeCapWF tc)
    (target : Char) (htg : target = 'A' ∨ target = 'P') :
    includesB (jsUpper tc.render) (target :: ['M'])
      = (match tc.ap with | some p => decide (p.2 = target) | none => false) := by
  rw [jsUpper_timeRender tc h]
  have htarget_digit : isDigitCh target = false := by
    rcases htg with h1 | h1 <;> subst h1 <;> decide
  have htarget_colon : target ≠ ':' := by
    rcases htg with h1 | h1 <;> subst h1 <;> decide
  have htarget_ws : isJsWs target = false := by
    rcases htg with h1 | h1 <;> subst h1 <;> decide
  cases hap : tc.ap with
  | none =>
    have hr : tc.render = tc.h ++ ':' :: tc.m ++
        (match tc.s with | none => [] | some ss => ':' :: ss) := by
      unfold TimeCap.render
      rw [hap]
      simp
    rw [hr]
    dsimp only
    apply includesB_eq_false_of_not_mem
    intro hmem
    rcases timeCore_chars tc h target hmem with hd | hd
    · rw [htarget_digit] at hd
      cases hd
    · exact htarget_colon hd
  | some p =>
    obtain ⟨ws, c⟩ := p
    obtain ⟨hws, hc⟩ := h.2.2.2.2.2 ws c hap
    have hr : tc.render = ((tc.h ++ ':' :: tc.m ++
        (match tc.s with | none => [] | some ss => ':' :: ss)) ++ ws) ++ [c, 'M'] := by
      unfold TimeCap.render
      rw [hap]
      dsimp only
      rw [← List.append_assoc]
    rw [hr]
    dsimp only
    by_cases hct : c = target
    · subst hct
      rw [show ((tc.h ++ ':' :: tc.m ++
          (match tc.s with | none => [] | some ss => ':' :: ss)) ++ ws) ++ [c, 'M']
          = ((tc.h ++ ':' :: tc.m ++
          (match tc.s with | none => [] | some ss => ':' :: ss)) ++ ws) ++ [c, 'M']
        from rfl, includesB_of_suffix _ [c, 'M']]
      simp
    · rw [includesB_eq_false_of_not_mem, eq_comm]
      · simp [hct]
      · intro hmem
        rcases List.mem_append.mp hmem with h1 | h1
        · rcases List.mem_append.mp h1 with h2 | h2
          · rcases timeCore_chars tc h target h2 with hd | hd
            · rw [htarget_digit] at hd
              cases hd
            · exact htarget_colon hd
          · exact ws_ne target (hws target h2) target htarget_ws rfl
        · simp only [List.mem_cons] at h1
          rcases h1 with h1 | h1 | h1
          · exact hct h1.symm
          · subst h1
            rcases htg with h1 | h1 <;> exact absurd h1 (by decide)
          · simp at h1

/-- A string containing `c` includes the singleton substring `[c]`. -/
theorem includesB_singleton_of_mem (l : Str) (c : Char) (h : c ∈ l) :
    includesB l [c] = true := by
  induction l with
  | nil => cases h
  | cons x t ih =>
    unfold includesB
    rcases List.mem_cons.mp h with h1 | h1
    · subst h1
      simp [isPrefixB]
    · rw [ih h1, Bool.or_true]

/-- A slash-date render contains no dash. -/
theorem slashRender_no_dash (d1 d2 d3 : Str)
    (h1 : allDigits d1) (h2 : allDigits d2) (h3 : allDigits d3) :
    includesB (DateCap.render (.slash d1 d2 d3)) ['-'] = false := by
  apply includesB_eq_false_of_not_mem
  intro hmem
  simp only [DateCap.render] at hmem
  rcases List.mem_append.mp hmem with ha | ha
  · rcases List.mem_append.mp ha with hb | hb
    · exact absurd (h1 '-' hb) (by decide)
    · rcases List.mem_cons.mp hb with hc | hc
      · exact absurd hc (by decide)
      · exact absurd (h2 '-' hc) (by decide)
  · rcases List.mem_cons.mp ha with hc | hc
    · exact absurd hc (by decide)
    · exact absurd (h3 '-' hc) (by decide)

/-- Splitting a slash-date render on `'/'` yields the three captures. -/
theorem jsSplit_slashRender (d1 d2 d3 : Str)
    (h1 : allDigits d1) (h2 : allDigits d2) (h3 : allDigits d3) :
    jsSplit '/' (DateCap.render (.slash d1 d2 d3)) = [d1, d2, d3] := by
  have hn1 : '/' ∉ d1 := fun hm => absurd (h1 '/' hm) (by decide)
  have hn2 : '/' ∉ d2 := fun hm => absurd (h2 '/' hm) (by decide)
  have hn3 : '/' ∉ d3 := fun hm => absurd (h3 '/' hm) (by decide)
  show jsSplit '/' ((d1 ++ '/' :: d2) ++ '/' :: d3) = [d1, d2, d3]
  rw [List.append_assoc, List.cons_append,
      jsSplit_append '/' d1 _ hn1, jsSplit_append '/' d2 _ hn2,
      jsSplit_not_mem '/' d3 hn3]

/-- Splitting an ISO-date render on `'-'` yields the three captures. -/
theorem jsSplit_isoRender (y m d : Str)
    (h1 : allDigits y) (h2 : allDigits m) (h3 : allDigits d) :
    jsSplit '-' (DateCap.render (.isoD y m d)) = [y, m, d] := by
  have hn1 : '-' ∉ y := fun hm => absurd (h1 '-' hm) (by decide)
  have hn2 : '-' ∉ m := fun hm => absurd (h2 '-' hm) (by decide)
  have hn3 : '-' ∉ d := fun hm => absurd (h3 '-' hm) (by decide)
  show jsSplit '-' ((y ++ '-' :: m) ++ '-' :: d) = [y, m, d]
  rw [List.append_assoc, List.cons_append,
      jsSplit_append '-' y _ hn1, jsSplit_append '-' m _ hn2,
      jsSplit_not_mem '-' d hn3]

/-- `parseDatePart` on a slash-date render with a non-ISO format:
day/month/year order with the two-digit-year adjustment. -/
theorem parseDatePart_slashRender (d1 d2 d3 : Str)
    (h1 : allDigits d1) (h2 : allDigits d2) (h3 : allDigits d3)
    (fmt : FormatType) (hfmt : fmt ≠ .iso) :
    parseDatePart (DateCap.render (.slash d1 d2 d3)) fmt
      = .ok ((parseIntJS d3).map (fun y => if y < 100 then y + 2000 else y),
             (parseIntJS d2).map (fun v => v - 1), parseIntJS d1) := by
  unfold parseDatePart
  rw [slashRender_no_dash d1 d2 d3 h1 h2 h3, if_neg (by simp [hfmt]),
      jsSplit_slashRender d1 d2 d3 h1 h2 h3]
  rfl

/-- `parseDatePart` on an ISO render: year/month/day order, any format. -/
theorem parseDatePart_isoRender (y m d : Str)
    (h1 : allDigits y) (h2 : allDigits m) (h3 : allDigits d)
    (fmt : FormatType) :
    parseDatePart (DateCap.render (.isoD y m d)) fmt
      = .ok (parseIntJS y, (parseIntJS m).map (fun v => v - 1), parseIntJS d) := by
  have hdash : includesB (DateCap.render (.isoD y m d)) ['-'] = true := by
    apply includesB_singleton_of_mem
    show '-' ∈ (y ++ '-' :: m) ++ '-' :: d
    exact List.mem_append.mpr (Or.inr (List.mem_cons_self _ _))
  unfold parseDatePart
  rw [hdash, Bool.or_true, if_pos rfl, jsSplit_isoRender y m d h1 h2 h3]
  rfl

/-- `parseTimePart` on a rendered well-formed time capture: hours after
the 12-hour adjustment, minutes, and the optional seconds defaulting
to 0. -/
theorem parseTimePart_timeRender (tc : TimeCap) (h : TimeCapWF tc) :
    parseTimePart tc.render = .ok (hoursSpec tc, parseIntJS tc.m, secondsSpec tc) := by
  simp only [parseTimePart]
  rw [show ("PM".toList : Str) = ['P', 'M'] from rfl,
      show ("AM".toList : Str) = ['A', 'M'] from rfl,
      includes_marker_timeRender tc h 'P' (Or.inr rfl),
      includes_marker_timeRender tc h 'A' (Or.inl rfl),
      timeParts_timeRender tc h]
  simp only [hoursSpec, secondsSpec, List.map_cons]
  cases hap : tc.ap with
  | none =>
    cases hcs : tc.s with
    | none => simp
    | some ss => simp
  | some p =>
    obtain ⟨ws, c⟩ := p
    rcases (h.2.2.2.2.2 ws c hap).2 with hc | hc <;> subst hc <;>
      cases hcs : tc.s with
      | none => simp
      | some ss => simp

/-- `parseTimestamp` on the rendered captures of a matched line: the full
date and time semantics. -/
theorem parseTimestampE_renders (dc : DateCap) (tc : TimeCap)
    (fmt : FormatType) (hdc : DateCapWF dc) (htc : TimeCapWF tc)
    (hfmt : ∀ d1 d2 d3, dc = .slash d1 d2 d3 → fmt ≠ .iso) :
    parseTimestampE dc.render tc.render fmt
      = .ok ⟨dateYearSpec dc, dateMonthSpec dc, dateDaySpec dc,
             hoursSpec tc, parseIntJS tc.m, secondsSpec tc⟩ := by
  unfold parseTimestampE
  cases dc with
  | slash d1 d2 d3 =>
    obtain ⟨h1, h2, h3⟩ := hdc
    rw [parseDatePart_slashRender d1 d2 d3 h1 h2 h3 fmt (hfmt d1 d2 d3 rfl),
        parseTimePart_timeRender tc htc]
    rfl
  | isoD y m d =>
    obtain ⟨h1, h2, h3⟩ := hdc
    rw [parseDatePart_isoRender y m d h1 h2 h3 fmt,
        parseTimePart_timeRender tc htc]
    rfl

/-- Claim C7.  For every matched timestamp line (its captures are digit
runs, and a slash date only arises in a non-ISO detected format):
ISO-style dates (the ISO format, or any date containing a dash) are split
on '-' as year-month-day; all other dates are split on '/' as
day-month-year with a two-digit year `yy` mapped to `2000 + yy`; the time
is uppercased to read the AM/PM flag, stripped of the AM/PM suffix, split
on ':', and the 12-hour rule is applied: if PM and hour is not 12, add
12; if AM and hour is 12, set the hour to 0; a missing seconds part
defaults to 0 and the (0-based) month argument is the captured month
minus 1. -/
theorem claim_C7_timestamp_semantics (dc : DateCap) (tc : TimeCap)
    (fmt : FormatType) (hdc : DateCapWF dc) (htc : TimeCapWF tc)
    (hfmt : ∀ d1 d2 d3, dc = .slash d1 d2 d3 → fmt ≠ .iso) :
    parseTimestampE dc.render tc.render fmt
      = .ok ⟨dateYearSpec dc, dateMonthSpec dc, dateDaySpec dc,
             hoursSpec tc, parseIntJS tc.m, secondsSpec tc⟩ :=
  parseTimestampE_renders dc tc fmt hdc htc hfmt

/-- Witness for claim C7: the line captures `1/2/34, 1:05 PM` parse to
year 2034, month 1 (February, 0-based), day 1, hour 13, minute 5,
second 0. -/
theorem claim_C7_timestamp_semantics_witness :
    parseTimestampE (DateCap.render (.slash ['1'] ['2'] ['3', '4']))
        (TimeCap.render ⟨['1'], ['0', '5'], none, some ([' '], 'P')⟩) .ios
      = .ok ⟨some 2034, some 1, some 1, some 13, some 5, some 0⟩ := by
  rw [claim_C7_timestamp_semantics (.slash ['1'] ['2'] ['3', '4'])
        ⟨['1'], ['0', '5'], none, some ([' '], 'P')⟩ .ios
        ⟨by unfold allDigits; decide, by unfold allDigits; decide,
         by unfold allDigits; decide⟩
        ⟨by unfold allDigits; decide, by decide,
         by unfold allDigits; decide, by decide,
         fun ss hss => Option.noConfusion hss,
         fun ws c hwc => by cases hwc; exact ⟨by decide, Or.inr rfl⟩⟩
        (fun _ _ _ _ => by decide)]
  rfl

/-- A successful `digitsBetween` capture is a digit run of length at
least `lo`. -/
theorem digitsBetween_wf (lo hi : ℕ) (l ds r : Str)
    (h : digitsBetween lo hi l = some (ds, r)) :
    allDigits ds ∧ lo ≤ ds.length := by
  unfold digitsBetween at h
  dsimp only at h
  split at h
  · rename_i hc
    rw [Option.some.injEq, Prod.mk.injEq] at h
    obtain ⟨h1, -⟩ := h
    subst h1
    exact ⟨fun x hx => List.mem_takeWhile_imp hx, hc.1⟩
  · exact absurd h (by simp)

/-- A captured optional-seconds run is a nonempty digit run. -/
theorem parseSecondsOpt_wf (b : Bool) (r3 : Str) (ss : Str)
    (h : (parseSecondsOpt b r3).1 = some ss) : allDigits ss ∧ ss ≠ [] := by
  unfold parseSecondsOpt at h
  split at h
  · split at h
    · split at h
      · rename_i ss' r' hds
        rw [show ((some ss', r') : Option Str × Str).1 = some ss' from rfl,
            Option.some.injEq] at h
        subst h
        obtain ⟨hd, hl⟩ := digitsBetween_wf 2 2 _ _ _ hds
        exact ⟨hd, List.length_pos.mp (by omega)⟩
      · exact absurd h (by simp)
    · exact absurd h (by simp)
  · exact absurd h (by simp)

/-- A successful time-group match yields a well-formed time capture. -/
theorem parseTimeCap_wf (b : Bool) (l : Str) (tc : TimeCap) (r : Str)
    (h : parseTimeCap b l = some (tc, r)) : TimeCapWF tc := by
  unfold parseTimeCap at h
  split at h
  · exact absurd h (by simp)
  · rename_i hh r1 hdh
    split at h
    · exact absurd h (by simp)
    · rename_i r2 hex
      split at h
      · exact absurd h (by simp)
      · rename_i mm r3 hdm
        obtain ⟨hdig_h, hlen_h⟩ := digitsBetween_wf 1 2 _ _ _ hdh
        obtain ⟨hdig_m, hlen_m⟩ := digitsBetween_wf 2 2 _ _ _ hdm
        have hne_h : hh ≠ [] := List.length_pos.mp (by omega)
        have hne_m : mm ≠ [] := List.length_pos.mp (by omega)
        dsimp only at h
        split at h
        · rename_i a b' r6 hdw
          split at h
          · rename_i hab
            rw [Option.some.injEq, Prod.mk.injEq] at h
            obtain ⟨h1, -⟩ := h
            subst h1
            refine ⟨hdig_h, hne_h, hdig_m, hne_m,
              fun ss hss => parseSecondsOpt_wf b _ ss hss, ?_⟩
            intro ws c hwc
            rw [Option.some.injEq, Prod.mk.injEq] at hwc
            obtain ⟨hw, hcc⟩ := hwc
            subst hw
            subst hcc
            constructor
            · exact fun x hx => List.mem_takeWhile_imp hx
            · rcases Bool.and_eq_true_iff.mp hab with ⟨ha, -⟩
              rcases Bool.or_eq_true_iff.mp ha with h1 | h1
              · exact Or.inl (by simpa using h1)
              · exact Or.inr (by simpa using h1)
          · rw [Option.some.injEq, Prod.mk.injEq] at h
            obtain ⟨h1, -⟩ := h
            subst h1
            exact ⟨hdig_h, hne_h, hdig_m, hne_m,
              fun ss hss => parseSecondsOpt_wf b _ ss hss,
              fun ws c hwc => Option.noConfusion hwc⟩
        · rw [Option.some.injEq, Prod.mk.injEq] at h
          obtain ⟨h1, -⟩ := h
          subst h1
          exact ⟨hdig_h, hne_h, hdig_m, hne_m,
            fun ss hss => parseSecondsOpt_wf b _ ss hss,
            fun ws c hwc => Option.noConfusion hwc⟩

/-- A bracketed-slash match yields well-formed slash-date and time
captures. -/
theorem matchIos_wf (line : Str) (rm : RawMatch) (h : matchIos line = some rm) :
    DateCapWF rm.date ∧ TimeCapWF rm.time ∧
      ∃ d1 d2 d3, rm.date = .slash d1 d2 d3 := by
  unfold matchIos at h
  simp only [Option.bind_eq_bind, Option.bind_eq_some, Option.pure_def,
    Option.some.injEq] at h
  obtain ⟨r0, hr0, ⟨d1, r1⟩, hd1, r2, hr2, ⟨d2, r3⟩, hd2, r4, hr4, ⟨d3, r5⟩, hd3,
    r6, hr6, ⟨tc, r7⟩, htc, r8, hr8, ⟨nm, ct⟩, hnc, hrm⟩ := h
  subst hrm
  exact ⟨⟨(digitsBetween_wf 1 2 _ _ _ hd1).1, (digitsBetween_wf 1 2 _ _ _ hd2).1,
          (digitsBetween_wf 2 4 _ _ _ hd3).1⟩,
         parseTimeCap_wf true _ _ _ htc, d1, d2, d3, rfl⟩

/-- A dash match yields well-formed slash-date and time captures. -/
theorem matchAndroid_wf (line : Str) (rm : RawMatch)
    (h : matchAndroid line = some rm) :
    DateCapWF rm.date ∧ TimeCapWF rm.time ∧
      ∃ d1 d2 d3, rm.date = .slash d1 d2 d3 := by
  unfold matchAndroid at h
  simp only [Option.bind_eq_bind, Option.bind_eq_some, Option.pure_def,
    Option.some.injEq] at h
  obtain ⟨⟨d1, r1⟩, hd1, r2, hr2, ⟨d2, r3⟩, hd2, r4, hr4, ⟨d3, r5⟩, hd3,
    r6, hr6, ⟨tc, r7⟩, htc, r8, hr8, ⟨nm, ct⟩, hnc, hrm⟩ := h
  subst hrm
  exact ⟨⟨(digitsBetween_wf 1 2 _ _ _ hd1).1, (digitsBetween_wf 1 2 _ _ _ hd2).1,
          (digitsBetween_wf 2 4 _ _ _ hd3).1⟩,
         parseTimeCap_wf false _ _ _ htc, d1, d2, d3, rfl⟩

/-- A bracketed-ISO match yields well-formed ISO-date and time captures. -/
theorem matchIso_wf (line : Str) (rm : RawMatch) (h : matchIso line = some rm) :
    DateCapWF rm.date ∧ TimeCapWF rm.time ∧
      ∃ y mo d, rm.date = .isoD y mo d := by
  unfold matchIso at h
  simp only [Option.bind_eq_bind, Option.bind_eq_some, Option.pure_def,
    Option.some.injEq] at h
  obtain ⟨r0, hr0, ⟨y, r1⟩, hy, r2, hr2, ⟨mo, r3⟩, hmo, r4, hr4, ⟨d, r5⟩, hd,
    r6, hr6, ⟨tc, r7⟩, htc, r8, hr8, ⟨nm, ct⟩, hnc, hrm⟩ := h
  subst hrm
  exact ⟨⟨(digitsBetween_wf 4 4 _ _ _ hy).1, (digitsBetween_wf 1 2 _ _ _ hmo).1,
          (digitsBetween_wf 1 2 _ _ _ hd).1⟩,
         parseTimeCap_wf true _ _ _ htc, y, mo, d, rfl⟩

/-- On the captures of any matched line, `parseTimestamp` succeeds. -/
theorem matchLine_parseOk (line : Str) (rm : RawMatch) (fmt : FormatType)
    (h : matchLine line = some (rm, fmt)) :
    ∃ ts, parseTimestampE rm.date.render rm.time.render fmt = .ok ts := by
  unfold matchLine at h
  split at h
  · rename_i rm' hios
    rw [Option.some.injEq, Prod.mk.injEq] at h
    obtain ⟨h1, h2⟩ := h
    subst h1
    subst h2
    obtain ⟨hdc, htc, -⟩ := matchIos_wf line _ hios
    exact ⟨_, parseTimestampE_renders _ _ .ios hdc htc
      (fun _ _ _ _ => by decide)⟩
  · split at h
    · rename_i rm' hand
      rw [Option.some.injEq, Prod.mk.injEq] at h
      obtain ⟨h1, h2⟩ := h
      subst h1
      subst h2
      obtain ⟨hdc, htc, -⟩ := matchAndroid_wf line _ hand
      exact ⟨_, parseTimestampE_renders _ _ .android hdc htc
        (fun _ _ _ _ => by decide)⟩
    · split at h
      · rename_i rm' hiso
        rw [Option.some.injEq, Prod.mk.injEq] at h
        obtain ⟨h1, h2⟩ := h
        subst h1
        subst h2
        obtain ⟨hdc, htc, y, mo, d, hshape⟩ := matchIso_wf line _ hiso
        refine ⟨_, parseTimestampE_renders _ _ .iso hdc htc ?_⟩
        intro d1 d2 d3 heq
        rw [hshape] at heq
        exact absurd heq (by simp)
      · exact absurd h (by simp)

/-- The tokenizer loop: with the matched-line count of the remaining
lines added to the records already held, a zero total yields exactly the
no-messages error and a nonzero total yields exactly that many records. -/
theorem tokenize_spec (lines : List Str) (cur : Option PMsg) (msgs : List PMsg) :
    (tokCount lines cur msgs = 0 →
      tokenize lines cur msgs = .error noMessagesError)
    ∧ (tokCount lines cur msgs ≠ 0 →
      ∃ out, tokenize lines cur msgs = .ok out
        ∧ out.length = tokCount lines cur msgs) := by
  induction lines generalizing cur msgs with
  | nil =>
    constructor
    · intro h0
      unfold tokCount at h0
      rw [List.countP_nil] at h0
      unfold tokenize
      dsimp only
      cases cur with
      | none =>
        dsimp only at h0 ⊢
        rw [if_pos (by omega)]
      | some m =>
        dsimp only at h0
        omega
    · intro hne
      unfold tokCount at hne ⊢
      rw [List.countP_nil] at hne ⊢
      unfold tokenize
      dsimp only
      cases cur with
      | none =>
        dsimp only at hne ⊢
        exact ⟨msgs, by rw [if_neg (by omega)], by omega⟩
      | some m =>
        dsimp only at hne ⊢
        refine ⟨msgs ++ [m], by rw [if_neg (by simp)], by simp⟩
  | cons rawLine rest ih =>
    by_cases hline : (jsTrim rawLine).length = 0
    · have htrim : jsTrim rawLine = [] := List.length_eq_zero.mp hline
      have hm : matchLine (jsTrim rawLine) = none := by rw [htrim]; decide
      have hstep : tokenize (rawLine :: rest) cur msgs = tokenize rest cur msgs := by
        conv_lhs => unfold tokenize
        dsimp only
        rw [if_pos hline]
      have hcount : tokCount (rawLine :: rest) cur msgs = tokCount rest cur msgs := by
        unfold tokCount
        rw [List.countP_cons, hm]
        simp
      rw [hcount, hstep]
      exact ih cur msgs
    · cases hm : matchLine (jsTrim rawLine) with
      | some p =>
        obtain ⟨rm, fmt⟩ := p
        obtain ⟨ts, hts⟩ := matchLine_parseOk _ _ _ hm
        cases cur with
        | some m =>
          have hstep : tokenize (rawLine :: rest) (some m) msgs
              = tokenize rest (some ⟨ts, jsTrim rm.name, jsTrim rm.content,
                  isSystemMessage (jsTrim rm.content) (jsTrim rm.name),
                  isMediaMessage (jsTrim rm.content)⟩) (msgs ++ [m]) := by
            conv_lhs => unfold tokenize
            dsimp only
            rw [if_neg hline, hm]
            dsimp only
            rw [hts]
          have hcount : tokCount (rawLine :: rest) (some m) msgs
              = tokCount rest (some ⟨ts, jsTrim rm.name, jsTrim rm.content,
                  isSystemMessage (jsTrim rm.content) (jsTrim rm.name),
                  isMediaMessage (jsTrim rm.content)⟩) (msgs ++ [m]) := by
            unfold tokCount
            rw [List.countP_cons, hm]
            simp [List.length_append]
            omega
          rw [hcount, hstep]
          exact ih _ _
        | none =>
          have hstep : tokenize (rawLine :: rest) none msgs
              = tokenize rest (some ⟨ts, jsTrim rm.name, jsTrim rm.content,
                  isSystemMessage (jsTrim rm.content) (jsTrim rm.name),
                  isMediaMessage (jsTrim rm.content)⟩) msgs := by
            conv_lhs => unfold tokenize
            dsimp only
            rw [if_neg hline, hm]
            dsimp only
            rw [hts]
          have hcount : tokCount (rawLine :: rest) none msgs
              = tokCount rest (some ⟨ts, jsTrim rm.name, jsTrim rm.content,
                  isSystemMessage (jsTrim rm.content) (jsTrim rm.name),
                  isMediaMessage (jsTrim rm.content)⟩) msgs := by
            unfold tokCount
            rw [List.countP_cons, hm]
            simp
            omega
          rw [hcount, hstep]
          exact ih _ _
      | none =>
        cases cur with
        | some m =>
          have hstep : tokenize (rawLine :: rest) (some m) msgs
              = tokenize rest (some (appendContinuationP m (jsTrim rawLine))) msgs := by
            conv_lhs => unfold tokenize
            dsimp only
            rw [if_neg hline, hm]
          have hcount : tokCount (rawLine :: rest) (some m) msgs
              = tokCount rest (some (appendContinuationP m (jsTrim rawLine))) msgs := by
            unfold tokCount
            rw [List.countP_cons, hm]
            simp
          rw [hcount, hstep]
          exact ih _ _
        | none =>
          have hstep : tokenize (rawLine :: rest) none msgs
              = tokenize rest none msgs := by
            conv_lhs => unfold tokenize
            dsimp only
            rw [if_neg hline, hm]
          have hcount : tokCount (rawLine :: rest) none msgs
              = tokCount rest none msgs := by
            unfold tokCount
            rw [List.countP_cons, hm]
            simp
          rw [hcount, hstep]
          exact ih _ _

/-- Claim C6.  The parser fails exactly when the input is
blank/whitespace-only (the empty-input error) or when tokenization of a
non-empty input matches zero lines (the no-messages error); these are the
only errors (in particular the timestamp parser never throws on a matched
line), a failure returns no partial message sequence, and on success the
returned sequence is nonempty and carries one record per matched line —
the trailing in-progress message included. -/
theorem claim_C6_parser_failure (input : Str) :
    (parseWhatsAppChat input = .error emptyInputError ↔ (jsTrim input).length = 0)
    ∧ (parseWhatsAppChat input = .error noMessagesError
        ↔ (jsTrim input).length ≠ 0 ∧ matchedLineCount input = 0)
    ∧ (∀ e, parseWhatsAppChat input = .error e →
        e = emptyInputError ∨ e = noMessagesError)
    ∧ (∀ out, parseWhatsAppChat input = .ok out →
        out.length = matchedLineCount input ∧ out ≠ []) := by
  have hdiff : emptyInputError ≠ noMessagesError := by decide
  by_cases hempty : (jsTrim input).length = 0
  · have hpw : parseWhatsAppChat input = .error emptyInputError := by
      unfold parseWhatsAppChat
      rw [if_pos (by simp [hempty])]
    refine ⟨by simp [hpw, hempty], ⟨?_, ?_⟩, ?_, ?_⟩
    · intro h
      rw [hpw, Except.error.injEq] at h
      exact absurd h hdiff
    · intro h
      exact absurd hempty h.1
    · intro e he
      rw [hpw, Except.error.injEq] at he
      exact Or.inl he.symm
    · intro out hout
      rw [hpw] at hout
      exact absurd hout (by simp)
  · have hsplit_tok : parseWhatsAppChat input = tokenize (jsSplit '\n' input) none [] := by
      unfold parseWhatsAppChat
      rw [if_neg]
      simp only [Bool.or_eq_true, decide_eq_true_eq, not_or]
      constructor
      · intro hc
        have hnil : input = [] := by simpa using hc
        apply hempty
        rw [hnil]
        rfl
      · exact hempty
    have htot : tokCount (jsSplit '\n' input) none [] = matchedLineCount input := by
      unfold tokCount matchedLineCount
      simp
    by_cases hzero : matchedLineCount input = 0
    · have herr : parseWhatsAppChat input = .error noMessagesError := by
        rw [hsplit_tok]
        exact (tokenize_spec _ _ _).1 (by rw [htot]; exact hzero)
      refine ⟨⟨?_, ?_⟩, by simp [herr, hempty, hzero], ?_, ?_⟩
      · intro h
        rw [herr, Except.error.injEq] at h
        exact absurd h.symm hdiff
      · intro h
        exact absurd h hempty
      · intro e he
        rw [herr, Except.error.injEq] at he
        exact Or.inr he.symm
      · intro out hout
        rw [herr] at hout
        exact absurd hout (by simp)
    · obtain ⟨out, hok, hlen⟩ := (tokenize_spec _ _ _).2 (by rw [htot]; exact hzero)
      have hpok : parseWhatsAppChat input = .ok out := by
        rw [hsplit_tok]
        exact hok
      refine ⟨⟨?_, fun h => absurd h hempty⟩, ⟨?_, fun h => absurd h.2 hzero⟩, ?_, ?_⟩
      · intro h
        rw [hpok] at h
        exact absurd h (by simp)
      · intro h
        rw [hpok] at h
        exact absurd h (by simp)
      · intro e he
        rw [hpok] at he
        exact absurd he (by simp)
      · intro out' hout'
        rw [hpok, Except.ok.injEq] at hout'
        subst hout'
        rw [htot] at hlen
        refine ⟨hlen, ?_⟩
        intro hnil
        rw [hnil] at hlen
        exact hzero (by simpa using hlen.symm)

/-- Witness for claim C6: the one-line input `x` is non-blank, matches no
grammar, and yields exactly the no-messages error. -/
theorem claim_C6_parser_failure_witness :
    parseWhatsAppChat "x".toList = Except.error noMessagesError :=
  ((claim_C6_parser_failure "x".toList).2.1).mpr ⟨by decide, by decide⟩
